import Mathlib

/-!
Verification of the visibility-rule package: a shallow embedding of its
geometry utilities (binary search, segment frustum, segment/triangle
intersection, model intersection walk), the direction-aware alignment
wrapper, and the range-accumulation logic of the two visibility sweeps,
together with theorems settling the specification claims.

Machine reals are embedded as rationals.  The only non-rational operation
in the sources is Math.sqrt; wherever a square root is needed as a value it
is passed as an explicit parameter (constrained by a hypothesis in the
theorems), and wherever the source only compares a square root against a
bound the comparison is embedded in the equivalent squared form.
-/

namespace Visibility

/-! ## Basic linear algebra (external Math3d library, standard meanings) -/

/-- A 3D vector with rational coordinates (embeds vec3). -/
@[ext]
structure Vec3 where
  x : ℚ
  y : ℚ
  z : ℚ
deriving DecidableEq, Repr

/-- A 2D vector with rational coordinates (embeds vec2). -/
@[ext]
structure Vec2 where
  x : ℚ
  y : ℚ
deriving DecidableEq, Repr

namespace Vec3

/-- Componentwise subtraction, Math3d.vec3.sub. -/
def sub (a b : Vec3) : Vec3 := ⟨a.x - b.x, a.y - b.y, a.z - b.z⟩

/-- Componentwise addition. -/
def add (a b : Vec3) : Vec3 := ⟨a.x + b.x, a.y + b.y, a.z + b.z⟩

/-- Scalar multiplication, Math3d.vec3.mul. -/
def smul (k : ℚ) (a : Vec3) : Vec3 := ⟨k * a.x, k * a.y, k * a.z⟩

/-- Dot product, Math3d.vec3.dot. -/
def dot (a b : Vec3) : ℚ := a.x * b.x + a.y * b.y + a.z * b.z

/-- Cross product, Math3d.vec3.cross. -/
def cross (a b : Vec3) : Vec3 :=
  ⟨a.y * b.z - a.z * b.y, a.z * b.x - a.x * b.z, a.x * b.y - a.y * b.x⟩

/-- Negation, Math3d.vec3.neg. -/
def neg (a : Vec3) : Vec3 := ⟨-a.x, -a.y, -a.z⟩

/-- Squared distance between two points; Math3d.vec3.distance is its
square root, and every use of it in the sources is embedded in squared
form. -/
def dist2 (a b : Vec3) : ℚ := dot (sub a b) (sub a b)

/-- Squared norm. -/
def norm2 (a : Vec3) : ℚ := dot a a

end Vec3

/-- An affine 4x4 transform (last row 0 0 0 1), as used for model-to-world
matrices; embeds mat4 restricted to the affine transforms the document
model produces. -/
structure Mat4 where
  m00 : ℚ
  m01 : ℚ
  m02 : ℚ
  m03 : ℚ
  m10 : ℚ
  m11 : ℚ
  m12 : ℚ
  m13 : ℚ
  m20 : ℚ
  m21 : ℚ
  m22 : ℚ
  m23 : ℚ
deriving DecidableEq, Repr

/-- Application of an affine matrix to a point, Math3d.mat4.mulv3 (the
source applies the homogeneous matrix with w = 1). -/
def Mat4.mulv3 (m : Mat4) (v : Vec3) : Vec3 :=
  ⟨m.m00 * v.x + m.m01 * v.y + m.m02 * v.z + m.m03,
   m.m10 * v.x + m.m11 * v.y + m.m12 * v.z + m.m13,
   m.m20 * v.x + m.m21 * v.y + m.m22 * v.z + m.m23⟩

/-- The identity matrix. -/
def Mat4.id : Mat4 := ⟨1, 0, 0, 0, 0, 1, 0, 0, 0, 0, 1, 0⟩

/-! ## Ordered-Search utility (src/utils/binarySearch.ts) -/

/-- Loop of binarySearch: startIndex and endIndex evolve exactly as in the
source; midIndex is startIndex + ((endIndex - startIndex) >> 1), a
non-negative halving.  JavaScript array indexing is embedded with getD and
an explicit default, and the final `~startIndex` is the two's-complement
encoding -(startIndex + 1). -/
def binarySearchGo {α : Type} (sortedArray : List α) (dflt : α) (target : α)
    (comparator : α → α → Int) (startIndex endIndex : Int) : Int :=
  if _h : startIndex ≤ endIndex then
    let midIndex := startIndex + ((endIndex - startIndex).toNat / 2 : ℕ)
    let midElement := sortedArray.getD midIndex.toNat dflt
    let comparisonResult := comparator target midElement
    if comparisonResult = 0 then
      midIndex
    else if comparisonResult > 0 then
      binarySearchGo sortedArray dflt target comparator (midIndex + 1) endIndex
    else
      binarySearchGo sortedArray dflt target comparator startIndex (midIndex - 1)
  else
    -(startIndex + 1)
termination_by (endIndex + 1 - startIndex).toNat
decreasing_by
  · omega
  · omega

/-- Performs a binary search on a sorted array (binarySearch in the
source): startIndex 0, endIndex length - 1. -/
def binarySearch {α : Type} (sortedArray : List α) (dflt : α) (target : α)
    (comparator : α → α → Int) : Int :=
  binarySearchGo sortedArray dflt target comparator 0 (sortedArray.length - 1)

/-- The canonical comparator of a linear order: negative, zero or positive
according to the comparison, the ordering under which the claims take the
array to be sorted. -/
def cmpOfOrd {α : Type} [LinearOrder α] (a b : α) : Int :=
  if a < b then -1 else if b < a then 1 else 0

lemma cmpOfOrd_eq_zero_iff {α : Type} [LinearOrder α] (a b : α) :
    cmpOfOrd a b = 0 ↔ a = b := by
  unfold cmpOfOrd
  rcases lt_trichotomy a b with h | h | h
  · simp [h, ne_of_lt h]
  · simp [h]
  · rw [if_neg (not_lt_of_lt h), if_pos h]
    constructor
    · intro hq; exact absurd hq (by decide)
    · intro hq; exact absurd hq.symm (ne_of_lt h)

lemma cmpOfOrd_pos_iff {α : Type} [LinearOrder α] (a b : α) :
    0 < cmpOfOrd a b ↔ b < a := by
  unfold cmpOfOrd
  rcases lt_trichotomy a b with h | h | h
  · simp [h, not_lt_of_lt h]
  · simp [h]
  · simp [h, not_lt_of_lt h]

lemma cmpOfOrd_neg_iff {α : Type} [LinearOrder α] (a b : α) :
    cmpOfOrd a b < 0 ↔ a < b := by
  unfold cmpOfOrd
  rcases lt_trichotomy a b with h | h | h
  · simp [h]
  · simp [h]
  · rw [if_neg (not_lt_of_lt h), if_pos h]
    constructor
    · intro hq; exact absurd hq (by decide)
    · intro hq; exact absurd hq (not_lt_of_lt h)

lemma binarySearchGo_unfold {α : Type} (l : List α) (dflt target : α)
    (cmp : α → α → Int) (lo hi : Int) :
    binarySearchGo l dflt target cmp lo hi =
      if lo ≤ hi then
        if cmp target (l.getD (lo + ((hi - lo).toNat / 2 : ℕ)).toNat dflt) = 0 then
          lo + ((hi - lo).toNat / 2 : ℕ)
        else if cmp target (l.getD (lo + ((hi - lo).toNat / 2 : ℕ)).toNat dflt) > 0 then
          binarySearchGo l dflt target cmp ((lo + ((hi - lo).toNat / 2 : ℕ)) + 1) hi
        else
          binarySearchGo l dflt target cmp lo ((lo + ((hi - lo).toNat / 2 : ℕ)) - 1)
      else -(lo + 1) := by
  rw [binarySearchGo]
  by_cases h : lo ≤ hi <;> simp [h]

lemma sorted_getD_le {α : Type} [LinearOrder α] {l : List α}
    (hs : l.Sorted (· ≤ ·)) (dflt : α) {i j : ℕ} (hij : i ≤ j)
    (hj : j < l.length) : l.getD i dflt ≤ l.getD j dflt := by
  rcases eq_or_lt_of_le hij with rfl | hlt
  · exact le_refl _
  · have hi : i < l.length := lt_trans hlt hj
    rw [List.getD_eq_getElem l dflt hi, List.getD_eq_getElem l dflt hj]
    exact List.pairwise_iff_getElem.mp hs i j hi hj hlt

/-- Loop invariant correctness of binarySearchGo: given that everything
left of startIndex is below the target and everything right of endIndex is
above it, the loop either finds an exact match or returns the encoded
insertion point, which is then startIndex with the invariants extended to
the whole array. -/
lemma binarySearchGo_spec {α : Type} [LinearOrder α] (l : List α)
    (dflt target : α) (hs : l.Sorted (· ≤ ·)) :
    ∀ (n : ℕ) (lo hi : Int), (hi + 1 - lo).toNat = n →
    0 ≤ lo → lo ≤ hi + 1 → hi < l.length →
    (∀ i : ℕ, (i : ℤ) < lo → i < l.length → l.getD i dflt < target) →
    (∀ i : ℕ, hi < (i : ℤ) → i < l.length → target < l.getD i dflt) →
    ((0 ≤ binarySearchGo l dflt target cmpOfOrd lo hi ∧
      (binarySearchGo l dflt target cmpOfOrd lo hi).toNat < l.length ∧
      l.getD (binarySearchGo l dflt target cmpOfOrd lo hi).toNat dflt = target) ∨
     (binarySearchGo l dflt target cmpOfOrd lo hi < 0 ∧
      0 ≤ -(binarySearchGo l dflt target cmpOfOrd lo hi + 1) ∧
      -(binarySearchGo l dflt target cmpOfOrd lo hi + 1) ≤ (l.length : ℤ) ∧
      (∀ i : ℕ, (i : ℤ) < -(binarySearchGo l dflt target cmpOfOrd lo hi + 1) →
        i < l.length → l.getD i dflt < target) ∧
      (∀ i : ℕ, -(binarySearchGo l dflt target cmpOfOrd lo hi + 1) ≤ (i : ℤ) →
        i < l.length → target < l.getD i dflt))) := by
  intro n
  induction n using Nat.strong_induction_on with
  | _ n ih =>
    intro lo hi hn hlo0 hlohi hhilen invLo invHi
    rw [binarySearchGo_unfold]
    by_cases hle : lo ≤ hi
    · rw [if_pos hle]
      have hmidlo : lo ≤ lo + ((hi - lo).toNat / 2 : ℕ) := by omega
      have hmidhi : lo + ((hi - lo).toNat / 2 : ℕ) ≤ hi := by omega
      set mid : Int := lo + ((hi - lo).toNat / 2 : ℕ) with hmiddef
      have hmidlen : mid.toNat < l.length := by omega
      rcases lt_trichotomy target (l.getD mid.toNat dflt) with hc | hc | hc
      · -- comparator negative: recurse on the left half
        have hcz : ¬ cmpOfOrd target (l.getD mid.toNat dflt) = 0 := by
          rw [cmpOfOrd_eq_zero_iff]; exact ne_of_lt hc
        have hcp : ¬ cmpOfOrd target (l.getD mid.toNat dflt) > 0 := by
          rw [gt_iff_lt, cmpOfOrd_pos_iff]; exact not_lt_of_lt hc
        rw [if_neg hcz, if_neg hcp]
        refine ih ((mid - 1) + 1 - lo).toNat (by omega) lo (mid - 1) rfl hlo0
          (by omega) (by omega) invLo ?_
        intro i hi1 hi2
        exact lt_of_lt_of_le hc (sorted_getD_le hs dflt (by omega) hi2)
      · -- comparator zero: found
        have hcz : cmpOfOrd target (l.getD mid.toNat dflt) = 0 := by
          rw [cmpOfOrd_eq_zero_iff]; exact hc
        rw [if_pos hcz]
        exact Or.inl ⟨by omega, hmidlen, hc.symm⟩
      · -- comparator positive: recurse on the right half
        have hcz : ¬ cmpOfOrd target (l.getD mid.toNat dflt) = 0 := by
          rw [cmpOfOrd_eq_zero_iff]; exact (ne_of_lt hc).symm
        have hcp : cmpOfOrd target (l.getD mid.toNat dflt) > 0 := by
          rw [gt_iff_lt, cmpOfOrd_pos_iff]; exact hc
        rw [if_neg hcz, if_pos hcp]
        refine ih (hi + 1 - (mid + 1)).toNat (by omega) (mid + 1) hi rfl
          (by omega) (by omega) hhilen ?_ invHi
        intro i hi1 hi2
        exact lt_of_le_of_lt (sorted_getD_le hs dflt (by omega) hmidlen) hc
    · rw [if_neg hle]
      rw [show -(-(lo + 1) + 1) = lo by ring]
      refine Or.inr ⟨by omega, hlo0, by omega, invLo, ?_⟩
      intro i hi1 hi2
      exact invHi i (by omega) hi2

/-- Inserting a value between the elements below it and the elements above
it preserves sortedness. -/
lemma sorted_insert_of_separated {α : Type} [LinearOrder α] {l : List α}
    (hs : l.Sorted (· ≤ ·)) (dflt target : α) (p : ℕ)
    (hlo : ∀ i : ℕ, i < p → i < l.length → l.getD i dflt < target)
    (hhi : ∀ i : ℕ, p ≤ i → i < l.length → target < l.getD i dflt) :
    (l.take p ++ target :: l.drop p).Sorted (· ≤ ·) := by
  have htake : ∀ a ∈ l.take p, a < target := by
    intro a ha
    obtain ⟨i, hil, hia⟩ := List.mem_iff_getElem.mp ha
    rw [List.length_take] at hil
    have hi1 : i < p := lt_of_lt_of_le hil (min_le_left _ _)
    have hi2 : i < l.length := lt_of_lt_of_le hil (min_le_right _ _)
    rw [List.getElem_take] at hia
    rw [← hia, ← List.getD_eq_getElem l dflt]
    exact hlo i hi1 hi2
  have hdrop : ∀ b ∈ l.drop p, target < b := by
    intro b hb
    obtain ⟨j, hjl, hjb⟩ := List.mem_iff_getElem.mp hb
    have hj2 : p + j < l.length := by
      have := hjl
      rw [List.length_drop] at this
      omega
    rw [List.getElem_drop] at hjb
    rw [← hjb, ← List.getD_eq_getElem l dflt]
    exact hhi (p + j) (Nat.le_add_right _ _) hj2
  rw [List.Sorted, List.pairwise_append]
  refine ⟨hs.sublist (List.take_sublist p l), ?_, ?_⟩
  · rw [List.pairwise_cons]
    refine ⟨fun b hb => le_of_lt (hdrop b hb), hs.sublist (List.drop_sublist p l)⟩
  · intro a ha b hb
    rcases List.mem_cons.mp hb with rfl | hb
    · exact le_of_lt (htake a ha)
    · exact le_of_lt (lt_trans (htake a ha) (hdrop b hb))

/-- C9: for every array sorted ascending under the comparator and every
target, binarySearch returns an index at which the comparator yields zero
whenever such an element exists; otherwise it returns a negative number
whose bitwise complement (the JavaScript encoding ~r, embedded as
-(r + 1)) is the insertion point p: complementing the returned value
recovers p, p is a valid position, and inserting the target at p keeps the
array sorted. -/
theorem C9_binarySearch_contract {α : Type} [LinearOrder α] (l : List α)
    (dflt target : α) (hs : l.Sorted (· ≤ ·)) :
    ((∃ i : ℕ, i < l.length ∧ cmpOfOrd target (l.getD i dflt) = 0) →
      (0 ≤ binarySearch l dflt target cmpOfOrd ∧
       (binarySearch l dflt target cmpOfOrd).toNat < l.length ∧
       cmpOfOrd target
         (l.getD (binarySearch l dflt target cmpOfOrd).toNat dflt) = 0)) ∧
    ((¬ ∃ i : ℕ, i < l.length ∧ cmpOfOrd target (l.getD i dflt) = 0) →
      (binarySearch l dflt target cmpOfOrd < 0 ∧
       ((-(binarySearch l dflt target cmpOfOrd + 1)).toNat : ℤ) =
         -(binarySearch l dflt target cmpOfOrd + 1) ∧
       (-(binarySearch l dflt target cmpOfOrd + 1)).toNat ≤ l.length ∧
       (l.take (-(binarySearch l dflt target cmpOfOrd + 1)).toNat ++
          target ::
            l.drop (-(binarySearch l dflt target cmpOfOrd + 1)).toNat).Sorted
         (· ≤ ·))) := by
  have H := binarySearchGo_spec l dflt target hs
    ((l.length : ℤ) - 1 + 1 - 0).toNat 0 ((l.length : ℤ) - 1) rfl (le_refl 0)
    (by omega) (by omega)
    (fun i h1 _ => absurd h1 (by omega))
    (fun i h1 h2 => absurd h1 (by omega))
  rw [show binarySearchGo l dflt target cmpOfOrd 0 ((l.length : ℤ) - 1) =
      binarySearch l dflt target cmpOfOrd from rfl] at H
  rcases H with ⟨h1, h2, h3⟩ | ⟨h1, h2, h3, h4, h5⟩
  · constructor
    · intro _
      exact ⟨h1, h2, by rw [cmpOfOrd_eq_zero_iff]; exact h3.symm⟩
    · intro hne
      exact absurd ⟨(binarySearch l dflt target cmpOfOrd).toNat, h2,
        by rw [cmpOfOrd_eq_zero_iff]; exact h3.symm⟩ hne
  · constructor
    · rintro ⟨i, hilen, hicmp⟩
      rw [cmpOfOrd_eq_zero_iff] at hicmp
      rcases lt_or_ge (i : ℤ) (-(binarySearch l dflt target cmpOfOrd + 1))
        with hcase | hcase
      · exact absurd hicmp.symm (ne_of_lt (h4 i hcase hilen))
      · exact absurd hicmp (ne_of_lt (h5 i hcase hilen))
    · intro _
      refine ⟨h1, by omega, by omega, ?_⟩
      apply sorted_insert_of_separated hs dflt target
      · intro i hi1 hi2
        exact h4 i (by omega) hi2
      · intro i hi1 hi2
        exact h5 i (by omega) hi2

/-- Witness for C9 at a concrete sorted array and a target that is absent:
the hypotheses are discharged by computation. -/
theorem C9_binarySearch_contract_witness :
    ([1, 3, 5] : List ℚ).Sorted (· ≤ ·) ∧
    (((∃ i : ℕ, i < ([1, 3, 5] : List ℚ).length ∧
        cmpOfOrd 4 (([1, 3, 5] : List ℚ).getD i 0) = 0) →
      (0 ≤ binarySearch ([1, 3, 5] : List ℚ) 0 4 cmpOfOrd ∧
       (binarySearch ([1, 3, 5] : List ℚ) 0 4 cmpOfOrd).toNat <
         ([1, 3, 5] : List ℚ).length ∧
       cmpOfOrd 4 (([1, 3, 5] : List ℚ).getD
         (binarySearch ([1, 3, 5] : List ℚ) 0 4 cmpOfOrd).toNat 0) = 0)) ∧
    ((¬ ∃ i : ℕ, i < ([1, 3, 5] : List ℚ).length ∧
        cmpOfOrd 4 (([1, 3, 5] : List ℚ).getD i 0) = 0) →
      (binarySearch ([1, 3, 5] : List ℚ) 0 4 cmpOfOrd < 0 ∧
       ((-(binarySearch ([1, 3, 5] : List ℚ) 0 4 cmpOfOrd + 1)).toNat : ℤ) =
         -(binarySearch ([1, 3, 5] : List ℚ) 0 4 cmpOfOrd + 1) ∧
       (-(binarySearch ([1, 3, 5] : List ℚ) 0 4 cmpOfOrd + 1)).toNat ≤
         ([1, 3, 5] : List ℚ).length ∧
       (([1, 3, 5] : List ℚ).take
          (-(binarySearch ([1, 3, 5] : List ℚ) 0 4 cmpOfOrd + 1)).toNat ++
          (4 : ℚ) :: ([1, 3, 5] : List ℚ).drop
            (-(binarySearch ([1, 3, 5] : List ℚ) 0 4 cmpOfOrd + 1)).toNat).Sorted
         (· ≤ ·)))) :=
  ⟨by decide, C9_binarySearch_contract ([1, 3, 5] : List ℚ) 0 4 (by decide)⟩

/-! ## Direction-aware path adapter (src/rules/alignmentWrapper.ts) -/

/-- Scan direction along the alignment (MoveDirection in the source). -/
inductive MoveDirection where
  | FORWARD : MoveDirection
  | BACKWARD : MoveDirection
deriving DecidableEq, Repr

/-- The path query surface of a live DwgAlignment entity as the wrapper
uses it.  The source methods write into a caller-supplied target buffer
and return it; a live entity fully overwrites the buffer, so they are
embedded as pure functions of the station/point argument. -/
structure DwgAlignment where
  length : ℚ
  tangentAtF : ℚ → Vec3
  toWCSF : Vec2 → Vec2
  fromWCSF : Vec2 → Vec2
  elevationAtF : ℚ → ℚ
  toPKF : ℚ → String

/-- AlignmentWrapper: a weak reference to the alignment (its deref result
is embedded as an Option: none is a destroyed referent), the length cached
at wrap time, and the scan direction. -/
structure AlignmentWrapper where
  alignment : Option DwgAlignment
  length : ℚ
  direction : MoveDirection

namespace AlignmentWrapper

/-- tangentAt from the source: on a destroyed referent the method returns
the caller's target buffer untouched; BACKWARD queries the mirrored
station and negates the result. -/
def tangentAt (w : AlignmentWrapper) (target : Vec3) (station : ℚ) : Vec3 :=
  match w.alignment with
  | none => target
  | some a =>
    match w.direction with
    | MoveDirection.FORWARD => a.tangentAtF station
    | MoveDirection.BACKWARD => Vec3.neg (a.tangentAtF (w.length - station))

/-- toWCS from the source: BACKWARD mirrors the station to length - s and
flips the lateral offset sign before delegating. -/
def toWCS (w : AlignmentWrapper) (target : Vec2) (stationOffset : Vec2) : Vec2 :=
  match w.alignment with
  | none => target
  | some a =>
    match w.direction with
    | MoveDirection.FORWARD => a.toWCSF stationOffset
    | MoveDirection.BACKWARD =>
      a.toWCSF ⟨w.length - stationOffset.x, -stationOffset.y⟩

/-- fromWCS from the source: BACKWARD mirrors the returned station and
offset. -/
def fromWCS (w : AlignmentWrapper) (target : Vec2) (point : Vec2) : Vec2 :=
  match w.alignment with
  | none => target
  | some a =>
    match w.direction with
    | MoveDirection.FORWARD => a.fromWCSF point
    | MoveDirection.BACKWARD =>
      ⟨w.length - (a.fromWCSF point).x, -(a.fromWCSF point).y⟩

/-- elevationAt from the source: 0.0 on a destroyed referent. -/
def elevationAt (w : AlignmentWrapper) (station : ℚ) : ℚ :=
  match w.alignment with
  | none => 0
  | some a =>
    match w.direction with
    | MoveDirection.FORWARD => a.elevationAtF station
    | MoveDirection.BACKWARD => a.elevationAtF (w.length - station)

/-- toPK from the source: the empty string on a destroyed referent. -/
def toPK (w : AlignmentWrapper) (station : ℚ) : String :=
  match w.alignment with
  | none => ""
  | some a =>
    match w.direction with
    | MoveDirection.FORWARD => a.toPKF station
    | MoveDirection.BACKWARD => a.toPKF (w.length - station)

end AlignmentWrapper

/-- An adapter whose referent has been destroyed, with an arbitrary cached
length and direction, used for the C7 counterexample. -/
def deadWrapper : AlignmentWrapper :=
  ⟨none, 5, MoveDirection.FORWARD⟩

/-- C7 counterexample: the claim says a query on a destroyed adapter
returns the zero vector for the tangent query, but tangentAt returns the
caller's target buffer unchanged, so with buffer (1, 2, 3) the result is
(1, 2, 3), not the zero vector. -/
theorem C7_counterexample :
    AlignmentWrapper.tangentAt deadWrapper ⟨1, 2, 3⟩ 0 = ⟨1, 2, 3⟩ ∧
    AlignmentWrapper.tangentAt deadWrapper ⟨1, 2, 3⟩ 0 ≠ ⟨0, 0, 0⟩ := by
  refine ⟨rfl, ?_⟩
  intro h
  have := congrArg Vec3.x h
  simp [AlignmentWrapper.tangentAt, deadWrapper] at this

/-- C7 amended: after the wrapped alignment has been destroyed, every
query returns without raising: the vector queries (tangent, to-world,
from-world) return the caller's target buffer unchanged (hence the zero
vector exactly when the buffer was zero-initialized), elevationAt returns
0.0, and the chainage label is the empty string. -/
theorem C7_dead_wrapper_defaults (w : AlignmentWrapper)
    (h : w.alignment = none) (target3 : Vec3) (target2 : Vec2)
    (station : ℚ) (stationOffset point : Vec2) :
    AlignmentWrapper.tangentAt w target3 station = target3 ∧
    AlignmentWrapper.toWCS w target2 stationOffset = target2 ∧
    AlignmentWrapper.fromWCS w target2 point = target2 ∧
    AlignmentWrapper.elevationAt w station = 0 ∧
    AlignmentWrapper.toPK w station = "" := by
  refine ⟨?_, ?_, ?_, ?_, ?_⟩ <;>
    simp [AlignmentWrapper.tangentAt, AlignmentWrapper.toWCS,
      AlignmentWrapper.fromWCS, AlignmentWrapper.elevationAt,
      AlignmentWrapper.toPK, h]

/-- Witness for C7 amended at the concrete dead adapter. -/
theorem C7_dead_wrapper_defaults_witness :
    deadWrapper.alignment = none ∧
    (AlignmentWrapper.tangentAt deadWrapper ⟨1, 2, 3⟩ 7 = ⟨1, 2, 3⟩ ∧
     AlignmentWrapper.toWCS deadWrapper ⟨4, 5⟩ ⟨1, 1⟩ = ⟨4, 5⟩ ∧
     AlignmentWrapper.fromWCS deadWrapper ⟨4, 5⟩ ⟨2, 2⟩ = ⟨4, 5⟩ ∧
     AlignmentWrapper.elevationAt deadWrapper 7 = 0 ∧
     AlignmentWrapper.toPK deadWrapper 7 = "") :=
  ⟨rfl, C7_dead_wrapper_defaults deadWrapper rfl ⟨1, 2, 3⟩ ⟨4, 5⟩ 7 ⟨1, 1⟩ ⟨2, 2⟩⟩

/-- C8: for a live wrapped alignment, the backward adapter agrees with the
forward adapter at the mirrored arguments: toWCS at (s, o) equals forward
toWCS at (length - s, -o), and tangentAt s is the negation of the forward
tangent at length - s. -/
theorem C8_backward_mirrors_forward (a : DwgAlignment) (len s o : ℚ)
    (target2 : Vec2) (target3 : Vec3) (h0 : 0 ≤ s) (hs : s ≤ len) :
    AlignmentWrapper.toWCS ⟨some a, len, MoveDirection.BACKWARD⟩ target2 ⟨s, o⟩ =
      AlignmentWrapper.toWCS ⟨some a, len, MoveDirection.FORWARD⟩ target2
        ⟨len - s, -o⟩ ∧
    AlignmentWrapper.tangentAt ⟨some a, len, MoveDirection.BACKWARD⟩ target3 s =
      Vec3.neg (AlignmentWrapper.tangentAt ⟨some a, len, MoveDirection.FORWARD⟩
        target3 (len - s)) := by
  exact ⟨rfl, rfl⟩

/-- A concrete live alignment used by witnesses. -/
def sampleAlignment : DwgAlignment where
  length := 10
  tangentAtF := fun s => ⟨s, 1, 0⟩
  toWCSF := fun p => ⟨p.x + p.y, p.x - p.y⟩
  fromWCSF := fun p => ⟨p.x, p.y⟩
  elevationAtF := fun s => s + 1
  toPKF := fun _ => "PK"

/-- Witness for C8 at a concrete live alignment, station and offset. -/
theorem C8_backward_mirrors_forward_witness :
    (0 : ℚ) ≤ 3 ∧ (3 : ℚ) ≤ 10 ∧
    (AlignmentWrapper.toWCS ⟨some sampleAlignment, 10, MoveDirection.BACKWARD⟩
        ⟨0, 0⟩ ⟨3, 2⟩ =
      AlignmentWrapper.toWCS ⟨some sampleAlignment, 10, MoveDirection.FORWARD⟩
        ⟨0, 0⟩ ⟨10 - 3, -2⟩ ∧
     AlignmentWrapper.tangentAt
        ⟨some sampleAlignment, 10, MoveDirection.BACKWARD⟩ ⟨0, 0, 0⟩ 3 =
      Vec3.neg (AlignmentWrapper.tangentAt
        ⟨some sampleAlignment, 10, MoveDirection.FORWARD⟩ ⟨0, 0, 0⟩ (10 - 3))) :=
  ⟨by decide, by decide,
    C8_backward_mirrors_forward sampleAlignment 10 3 2 ⟨0, 0⟩ ⟨0, 0, 0⟩
      (by decide) (by decide)⟩

/-! ## Segment/triangle intersector (src/utils/intersect.ts) -/

/-- Loose tolerance of the intersector, EPS = 1e-3. -/
def EPS : ℚ := 1 / 1000

/-- Tight tolerance of the intersector, EPS2 = 1e-7. -/
def EPS2 : ℚ := 1 / 10000000

/-- The determinant of segmentIntersectsTriangle before the guard: the dot
of the normalized segment direction (sa - sb, the source subtracts in this
order) with the cross product of the triangle's edge vectors.  l stands
for Math.sqrt of the squared direction length. -/
def triIdet (sa sb ta tb tc : Vec3) (l : ℚ) : ℚ :=
  Vec3.dot (Vec3.smul (1 / l) (Vec3.sub sa sb))
    (Vec3.cross (Vec3.sub tb ta) (Vec3.sub tc ta))

/-- segmentIntersectsTriangle from the source, with the square root of the
squared segment length passed as the explicit parameter l (theorems about
it constrain l to be that square root; concrete instances use inputs whose
squared length is a perfect square). -/
def segmentIntersectsTriangle (l : ℚ) (sa sb ta tb tc : Vec3) : Bool :=
  let md := Vec3.sub sa sb
  let l2 := Vec3.dot md md
  if l2 < EPS2 then
    false
  else
    let v1 := Vec3.smul (1 / l) md
    let v2 := Vec3.sub tb ta
    let v3 := Vec3.sub tc ta
    let v4 := Vec3.cross v2 v3
    let idet := Vec3.dot v1 v4
    if idet < EPS then
      false
    else
      let det := 1 / Vec3.dot v1 v4
      let v5 := Vec3.sub sa ta
      let t := det * Vec3.dot v5 v4
      if t < -EPS ∨ t > l + EPS then
        false
      else
        let u := det * Vec3.dot v5 (Vec3.cross v3 v1)
        if u < -EPS ∨ u > 1 + EPS then
          false
        else
          let v := det * Vec3.dot v5 (Vec3.cross v1 v2)
          if v < -EPS ∨ v > 1 + EPS ∨ u + v > 1 + EPS then
            false
          else
            true

/-- The input of the C6 counterexample: a unit probe segment along z and
a triangle whose edge cross product has z component 1e-5, so the
determinant is 1e-5, strictly between 1e-7 and 1e-3. -/
def c6sa : Vec3 := ⟨0, 0, 1⟩

/-- Start of the C6 probe segment. -/
def c6sb : Vec3 := ⟨0, 0, 0⟩

/-- First triangle vertex of the C6 counterexample. -/
def c6ta : Vec3 := ⟨0, 0, 0⟩

/-- Second triangle vertex of the C6 counterexample. -/
def c6tb : Vec3 := ⟨1, 0, 0⟩

/-- Third triangle vertex of the C6 counterexample. -/
def c6tc : Vec3 := ⟨0, 1 / 100000, 0⟩

/-- C6 counterexample: an input whose determinant is 1e-5, strictly
between 1e-7 and 1e-3, and which satisfies the length-squared guard and
all of the t, u, v acceptance bands (t = 1 within [-EPS, l + EPS], u = v =
0), yet segmentIntersectsTriangle returns false: the input is rejected at
the determinant guard, which uses the loose 1e-3 threshold, not 1e-7 as
the claim states. -/
theorem C6_counterexample :
    segmentIntersectsTriangle 1 c6sa c6sb c6ta c6tb c6tc = false ∧
    triIdet c6sa c6sb c6ta c6tb c6tc 1 = 1 / 100000 ∧
    EPS2 < 1 / 100000 ∧ (1 : ℚ) / 100000 < EPS ∧
    ¬ (Vec3.dot (Vec3.sub c6sa c6sb) (Vec3.sub c6sa c6sb) < EPS2) ∧
    (1 * 1 : ℚ) = Vec3.dot (Vec3.sub c6sa c6sb) (Vec3.sub c6sa c6sb) ∧
    ¬ ((1 : ℚ) < -EPS ∨ (1 : ℚ) > 1 + EPS) ∧
    ¬ ((0 : ℚ) < -EPS ∨ (0 : ℚ) > 1 + EPS) := by
  refine ⟨?_, ?_, ?_, ?_, ?_, ?_, ?_, ?_⟩ <;>
    norm_num [segmentIntersectsTriangle, triIdet, EPS, EPS2, c6sa, c6sb,
      c6ta, c6tb, c6tc, Vec3.dot, Vec3.sub, Vec3.cross, Vec3.smul]

/-- C6 amended: the length-squared guard uses the tight 1e-7 threshold,
but the determinant guard uses the same 1e-3 as the other bands (and is
one-sided): every input whose determinant is below 1e-3 is rejected, in
particular every input whose determinant lies strictly between 1e-7 and
1e-3; and every input whose squared direction length is below 1e-7 is
rejected. -/
theorem C6_guard_thresholds (l : ℚ) (sa sb ta tb tc : Vec3) :
    (triIdet sa sb ta tb tc l < EPS →
      segmentIntersectsTriangle l sa sb ta tb tc = false) ∧
    (Vec3.dot (Vec3.sub sa sb) (Vec3.sub sa sb) < EPS2 →
      segmentIntersectsTriangle l sa sb ta tb tc = false) := by
  constructor
  · intro h
    unfold segmentIntersectsTriangle
    by_cases h2 : Vec3.dot (Vec3.sub sa sb) (Vec3.sub sa sb) < EPS2
    · simp [h2]
    · simp only [h2, if_false]
      rw [if_pos]
      exact h
  · intro h
    unfold segmentIntersectsTriangle
    simp [h]

/-- Witness for C6 amended at the counterexample input. -/
theorem C6_guard_thresholds_witness :
    (triIdet c6sa c6sb c6ta c6tb c6tc 1 < EPS ∧
      segmentIntersectsTriangle 1 c6sa c6sb c6ta c6tb c6tc = false) ∧
    True :=
  ⟨⟨by norm_num [triIdet, EPS, c6sa, c6sb, c6ta, c6tb, c6tc, Vec3.dot,
      Vec3.sub, Vec3.cross, Vec3.smul],
    (C6_guard_thresholds 1 c6sa c6sb c6ta c6tb c6tc).1
      (by norm_num [triIdet, EPS, c6sa, c6sb, c6ta, c6tb, c6tc, Vec3.dot,
        Vec3.sub, Vec3.cross, Vec3.smul])⟩,
    trivial⟩

/-! ## Mesh geometry, models and the centroid (part_002, modelCenter) -/

/-- Mesh geometry: a flat vertex buffer (triplets of coordinates), a flat
triangle-index buffer, and the internal triangle spatial structure used by
the intersection walk, embedded as the triangle ids walkSegment enumerates
for a given model-space segment (none when the structure is unavailable).
JavaScript out-of-range buffer reads are embedded with default 0; the
theorems only evaluate geometries whose indices are in range. -/
structure Geometry where
  vertices : List ℚ
  indices : List ℕ
  spatial : Option (Vec3 → Vec3 → List ℕ)

/-- A mesh: its geometry may be unloaded. -/
structure Mesh where
  geometry : Option Geometry

/-- A 3D model: meshes plus a model-to-world transform. -/
structure DwgModel3d where
  meshes : List Mesh
  matrix : Mat4

/-- The vertex of a geometry at a vertex id: three consecutive entries of
the flat buffer starting at id * 3. -/
def vertexAt (g : Geometry) (i : ℕ) : Vec3 :=
  ⟨g.vertices.getD (i * 3) 0, g.vertices.getD (i * 3 + 1) 0,
   g.vertices.getD (i * 3 + 2) 0⟩

/-- One step of the modelCenter accumulation: the source adds the three
coordinates at i3 = indices[i] * 3 and bumps the count. -/
def centerStep (g : Geometry) (acc : ℚ × ℚ × ℚ × ℕ) (i : ℕ) : ℚ × ℚ × ℚ × ℕ :=
  (acc.1 + g.vertices.getD (i * 3) 0,
   acc.2.1 + g.vertices.getD (i * 3 + 1) 0,
   acc.2.2.1 + g.vertices.getD (i * 3 + 2) 0,
   acc.2.2.2 + 1)

/-- The inner loop of modelCenter over one geometry's index buffer. -/
def geomFold (g : Geometry) (acc : ℚ × ℚ × ℚ × ℕ) : ℚ × ℚ × ℚ × ℕ :=
  g.indices.foldl (centerStep g) acc

/-- The x, y, z, n accumulation of modelCenter over all meshes; meshes
without geometry are skipped. -/
def modelCenterSum (m : DwgModel3d) : ℚ × ℚ × ℚ × ℕ :=
  m.meshes.foldl (fun acc mesh =>
    match mesh.geometry with
    | none => acc
    | some g => geomFold g acc) (0, 0, 0, 0)

/-- modelCenter from the source: none exactly when n = 0 (the source
returns false, having touched no index entry), otherwise the mean of the
accumulated coordinates transformed by the model matrix.  The source's
success flag is true whenever n is nonzero, so the boolean result is
equivalent to this Option. -/
def modelCenter (m : DwgModel3d) : Option Vec3 :=
  if (modelCenterSum m).2.2.2 = 0 then none
  else
    some (m.matrix.mulv3
      ⟨(modelCenterSum m).1 / ((modelCenterSum m).2.2.2 : ℚ),
       (modelCenterSum m).2.1 / ((modelCenterSum m).2.2.2 : ℚ),
       (modelCenterSum m).2.2.1 / ((modelCenterSum m).2.2.2 : ℚ)⟩)

/-- The triangle-vertex incidences of one geometry: one vertex per index
entry, in buffer order. -/
def geomIncidences (g : Geometry) : List Vec3 := g.indices.map (vertexAt g)

/-- All triangle-vertex incidences of a model, across meshes with
geometry. -/
def modelIncidences (m : DwgModel3d) : List Vec3 :=
  m.meshes.bind (fun mesh =>
    match mesh.geometry with
    | none => []
    | some g => geomIncidences g)

/-- Sum of a list of vectors. -/
def sumV : List Vec3 → Vec3
  | [] => ⟨0, 0, 0⟩
  | v :: vs => Vec3.add v (sumV vs)

lemma sumV_append (l1 l2 : List Vec3) :
    sumV (l1 ++ l2) = Vec3.add (sumV l1) (sumV l2) := by
  induction l1 with
  | nil => simp [sumV, Vec3.add]
  | cons v vs ih =>
    simp only [List.cons_append, sumV]
    ext <;> simp [Vec3.add, ih] <;> ring

lemma geomFold_spec (g : Geometry) : ∀ (idx : List ℕ) (acc : ℚ × ℚ × ℚ × ℕ),
    idx.foldl (centerStep g) acc =
      (acc.1 + (sumV (idx.map (vertexAt g))).x,
       acc.2.1 + (sumV (idx.map (vertexAt g))).y,
       acc.2.2.1 + (sumV (idx.map (vertexAt g))).z,
       acc.2.2.2 + idx.length)
  | [], acc => by simp [sumV]
  | i :: is, acc => by
    rw [List.foldl_cons, geomFold_spec g is]
    simp only [List.map_cons, sumV, centerStep, Vec3.add, vertexAt,
      List.length_cons, Prod.mk.injEq]
    refine ⟨by ring, by ring, by ring, by omega⟩

lemma modelCenterSum_spec (m : DwgModel3d) :
    modelCenterSum m =
      ((sumV (modelIncidences m)).x, (sumV (modelIncidences m)).y,
       (sumV (modelIncidences m)).z, (modelIncidences m).length) := by
  unfold modelCenterSum modelIncidences
  suffices h : ∀ (meshes : List Mesh) (acc : ℚ × ℚ × ℚ × ℕ),
      meshes.foldl (fun acc mesh =>
        match mesh.geometry with
        | none => acc
        | some g => geomFold g acc) acc =
      (acc.1 + (sumV (meshes.bind (fun mesh =>
         match mesh.geometry with
         | none => []
         | some g => geomIncidences g))).x,
       acc.2.1 + (sumV (meshes.bind (fun mesh =>
         match mesh.geometry with
         | none => []
         | some g => geomIncidences g))).y,
       acc.2.2.1 + (sumV (meshes.bind (fun mesh =>
         match mesh.geometry with
         | none => []
         | some g => geomIncidences g))).z,
       acc.2.2.2 + (meshes.bind (fun mesh =>
         match mesh.geometry with
         | none => []
         | some g => geomIncidences g)).length) by
    rw [h m.meshes (0, 0, 0, 0)]
    simp
  intro meshes
  induction meshes with
  | nil => intro acc; simp [sumV]
  | cons mesh rest ih =>
    intro acc
    rcases hg : mesh.geometry with _ | g
    · simp only [List.foldl_cons, hg, List.cons_bind]
      rw [ih acc]
      simp [hg]
    · simp only [List.foldl_cons, hg, List.cons_bind]
      rw [ih (geomFold g acc)]
      unfold geomFold
      rw [geomFold_spec g g.indices acc]
      simp only [sumV_append, Vec3.add, List.length_append, Prod.mk.injEq]
      unfold geomIncidences
      refine ⟨by ring, by ring, by ring, by simp [List.length_map]; omega⟩

lemma sumV_map_mulv3 (M : Mat4) : ∀ (l : List Vec3),
    sumV (l.map M.mulv3) =
      ⟨M.m00 * (sumV l).x + M.m01 * (sumV l).y + M.m02 * (sumV l).z +
         (l.length : ℚ) * M.m03,
       M.m10 * (sumV l).x + M.m11 * (sumV l).y + M.m12 * (sumV l).z +
         (l.length : ℚ) * M.m13,
       M.m20 * (sumV l).x + M.m21 * (sumV l).y + M.m22 * (sumV l).z +
         (l.length : ℚ) * M.m23⟩
  | [] => by simp [sumV]
  | v :: vs => by
    rw [List.map_cons]
    simp only [sumV, sumV_map_mulv3 M vs, Vec3.add, Mat4.mulv3,
      List.length_cons]
    ext <;> push_cast <;> ring

/-- C4 amended: the world-space target point of the path-to-object sweep
is the plain (unweighted) mean of the model's triangle-vertex incidences
(each triangle corner counted once per index entry), taken in world space
via the model matrix; an object with no index entries in any loaded
geometry yields no centroid and is skipped. -/
theorem C4_modelCenter_is_incidence_mean (model : DwgModel3d) :
    modelCenter model =
      if (modelIncidences model).length = 0 then none
      else
        some (Vec3.smul (1 / ((modelIncidences model).length : ℚ))
          (sumV ((modelIncidences model).map model.matrix.mulv3))) := by
  unfold modelCenter
  rw [modelCenterSum_spec]
  by_cases hn : (modelIncidences model).length = 0
  · simp [hn]
  · simp only [hn, if_neg, if_false]
    congr 1
    rw [sumV_map_mulv3 model.matrix (modelIncidences model)]
    have hq : ((modelIncidences model).length : ℚ) ≠ 0 := by
      exact_mod_cast hn
    simp only [Mat4.mulv3, Vec3.smul]
    ext <;> field_simp <;> ring

/-- The two-triangle model of the C4 counterexample: a small triangle with
area 1/2 and a large one with area 8, both in the z = 0 plane, identity
transform. -/
def c4model : DwgModel3d where
  meshes := [⟨some ⟨[0, 0, 0, 1, 0, 0, 0, 1, 0, 10, 0, 0, 14, 0, 0, 10, 4, 0],
    [0, 1, 2, 3, 4, 5], none⟩⟩]
  matrix := Mat4.id

/-- Area of a triangle lying in a plane of constant z, by the shoelace
formula, which is the exact triangle area for such triangles (the
counterexample model is planar, so no generality is lost there). -/
def triangleAreaZ (a b c : Vec3) : ℚ :=
  |(b.x - a.x) * (c.y - a.y) - (b.y - a.y) * (c.x - a.x)| / 2

/-- The triangles of one geometry, reading the index buffer in triplets. -/
def geomTriangles (g : Geometry) : List (Vec3 × Vec3 × Vec3) :=
  (List.range (g.indices.length / 3)).map (fun t =>
    (vertexAt g (g.indices.getD (3 * t) 0),
     vertexAt g (g.indices.getD (3 * t + 1) 0),
     vertexAt g (g.indices.getD (3 * t + 2) 0)))

/-- All triangles of a model. -/
def modelTriangles (m : DwgModel3d) : List (Vec3 × Vec3 × Vec3) :=
  m.meshes.bind (fun mesh =>
    match mesh.geometry with
    | none => []
    | some g => geomTriangles g)

/-- Modelled from the spec: the world-space centroid as the claim states
it, the area-weighted mean of all triangle vertices across all meshes in
world space via the transform: each triangle's three vertices are weighted
by the triangle's area; none when the total area is zero or there is no
geometry. -/
def areaWeightedCenter (m : DwgModel3d) : Option Vec3 :=
  let tris := (modelTriangles m).map (fun t =>
    (m.matrix.mulv3 t.1, m.matrix.mulv3 t.2.1, m.matrix.mulv3 t.2.2))
  let W := (tris.map (fun t => triangleAreaZ t.1 t.2.1 t.2.2)).sum
  if W = 0 then none
  else
    some (Vec3.smul (1 / (3 * W))
      (sumV (tris.map (fun t =>
        Vec3.smul (triangleAreaZ t.1 t.2.1 t.2.2)
          (Vec3.add t.1 (Vec3.add t.2.1 t.2.2))))))

/-- C4 counterexample: on a model with two z-planar triangles of areas 1/2
and 8, the centroid modelCenter computes is the unweighted incidence mean
(35/6, 5/6, 0), while the area-weighted mean of the triangle vertices is
(545/51, 65/51, 0); the two differ, so the sweep's fixed target point is
not the area-weighted mean the claim describes. -/
theorem C4_counterexample :
    modelCenter c4model = some ⟨35 / 6, 5 / 6, 0⟩ ∧
    areaWeightedCenter c4model = some ⟨545 / 51, 65 / 51, 0⟩ ∧
    (⟨35 / 6, 5 / 6, 0⟩ : Vec3) ≠ ⟨545 / 51, 65 / 51, 0⟩ := by
  refine ⟨?_, ?_, ?_⟩
  · norm_num [modelCenter, modelCenterSum, geomFold, centerStep, c4model,
      Mat4.mulv3, Mat4.id, List.foldl]
  · norm_num [areaWeightedCenter, modelTriangles, geomTriangles, c4model,
      Mat4.mulv3, Mat4.id, vertexAt, triangleAreaZ, sumV, Vec3.add,
      Vec3.smul, List.range_succ]
  · intro h
    have := congrArg Vec3.x h
    norm_num at this

/-! ## Segment bounding volume (src/utils/frustum.ts, SegmentFrustum) -/

/-- Modelled external Math3d.ray3.closestPointToRay: the parameter along
the first ray (origin o1, direction d1) of the closest point of its line
to the line of the second ray, by the standard normal-equations formula.
A zero denominator (parallel or degenerate directions) yields 0 under
rational division where the float code would produce a NaN; no theorem
here exercises that case. -/
def closestPointToRay (o1 d1 o2 d2 : Vec3) : ℚ :=
  (Vec3.dot d1 d2 * Vec3.dot d2 (Vec3.sub o1 o2) -
     Vec3.dot d2 d2 * Vec3.dot d1 (Vec3.sub o1 o2)) /
    (Vec3.dot d1 d1 * Vec3.dot d2 d2 - Vec3.dot d1 d2 * Vec3.dot d1 d2)

/-- The segment bounding volume: two 3D endpoints. -/
structure SegmentFrustum where
  a : Vec3
  b : Vec3
deriving DecidableEq, Repr

namespace SegmentFrustum

/-- The ray method of the source: leaves the caller's zero-initialized ray
buffer untouched (the zero ray) when the endpoints coincide within EPS,
otherwise origin a with normalized direction.  flen stands for Math.sqrt
of the squared endpoint distance; the guard `distance < EPS` is embedded
in squared form. -/
def ray (F : SegmentFrustum) (flen : ℚ) : Vec3 × Vec3 :=
  if Vec3.dist2 F.a F.b < EPS * EPS then (⟨0, 0, 0⟩, ⟨0, 0, 0⟩)
  else (F.a, Vec3.smul (1 / flen) (Vec3.sub F.b F.a))

/-- containsPoint from the source: the distance from the point to the
line of this.ray (a unit-direction ray, so Math3d.ray3.distanceToPoint is
the cross-product norm), compared against EPS; both sides are nonnegative,
so `distance < EPS` is embedded as the squared comparison.  With a
degenerate volume the source ray is the zero ray and the float distance is
not a number, whose comparison is false. -/
def containsPoint (F : SegmentFrustum) (point : Vec3) (flen : ℚ) : Bool :=
  if Vec3.dist2 F.a F.b < EPS * EPS then false
  else
    Vec3.norm2 (Vec3.cross (Vec3.sub point F.a)
      (Vec3.smul (1 / flen) (Vec3.sub F.b F.a))) < EPS * EPS

/-- intersectSegment from the source: len and flen stand for the square
roots of the query segment's and the volume's squared lengths. The length
guard is embedded in squared form; direction is the normalized query
direction; t is the closest-approach parameter of the query line against
the volume's ray; the guard `0 < t || t > length` and the final
containment test follow the source line by line. -/
def intersectSegment (F : SegmentFrustum) (a b : Vec3) (len flen : ℚ) : Bool :=
  if Vec3.dist2 a b < EPS * EPS then F.containsPoint a flen
  else
    let direction := Vec3.smul (1 / len) (Vec3.sub b a)
    let fray := F.ray flen
    let t := closestPointToRay a direction fray.1 fray.2
    if 0 < t ∨ t > len then false
    else F.containsPoint (Vec3.add a (Vec3.smul t direction)) flen

end SegmentFrustum

/-- The volume of the C5 failing input: centerline from the origin to
(10, 0, 0). -/
def c5F : SegmentFrustum := ⟨⟨0, 0, 0⟩, ⟨10, 0, 0⟩⟩

/-- Query segment start of the C5 failing input. -/
def c5a : Vec3 := ⟨5, 0, -1⟩

/-- Query segment end of the C5 failing input. -/
def c5b : Vec3 := ⟨5, 0, 1⟩

/-- C5 (code bug): at the failing input the closest-approach parameter of
the query segment (5,0,-1)-(5,0,1) against the volume's centerline is
t = 1, within the parameter range [0, len] = [0, 2], and the closest point
(5, 0, 0) lies on the centerline (containsPoint holds), so the claimed
closest-approach semantics require true; intersectSegment returns false
because its guard `0 < t || t > length` rejects every positive t —
evidently a slip for `t < 0`, which is the spec's (and the claim's)
reading.  len = 2 and flen = 10 are the exact square roots of the squared
lengths, as the first two conjuncts record. -/
theorem C5_intersectSegment_bug :
    ((2 : ℚ) * 2 = Vec3.dist2 c5a c5b) ∧
    ((10 : ℚ) * 10 = Vec3.dist2 c5F.a c5F.b) ∧
    closestPointToRay c5a (Vec3.smul (1 / 2) (Vec3.sub c5b c5a))
      (c5F.ray 10).1 (c5F.ray 10).2 = 1 ∧
    ((0 : ℚ) ≤ 1 ∧ (1 : ℚ) ≤ 2) ∧
    c5F.containsPoint
      (Vec3.add c5a (Vec3.smul 1 (Vec3.smul (1 / 2) (Vec3.sub c5b c5a)))) 10 =
      true ∧
    c5F.intersectSegment c5a c5b 2 10 = false := by
  refine ⟨?_, ?_, ?_, ⟨by norm_num, by norm_num⟩, ?_, ?_⟩ <;>
    norm_num [SegmentFrustum.intersectSegment, SegmentFrustum.containsPoint,
      SegmentFrustum.ray, closestPointToRay, c5F, c5a, c5b, Vec3.dist2,
      Vec3.dot, Vec3.sub, Vec3.add, Vec3.smul, Vec3.cross, Vec3.norm2, EPS]

/-! ## Model intersection walk and the obstacle predicates -/

/-- The three vertices of a triangle of a geometry, as the walk callback
reconstructs them from the flat buffers (t3 = triangle * 3). -/
def triAt (g : Geometry) (triangle : ℕ) : Vec3 × Vec3 × Vec3 :=
  (vertexAt g (g.indices.getD (triangle * 3) 0),
   vertexAt g (g.indices.getD (triangle * 3 + 1) 0),
   vertexAt g (g.indices.getD (triangle * 3 + 2) 0))

/-- The walk over one mesh: skipped without geometry or spatial structure;
otherwise the spatial structure enumerates candidate triangles and the
callback keeps the first confirmed hit (the `intersects` flag
short-circuits further tests exactly as in the source). -/
def meshIntersects (l : ℚ) (mesh : Mesh) (v7 v8 : Vec3) : Bool :=
  match mesh.geometry with
  | none => false
  | some g =>
    match g.spatial with
    | none => false
    | some walk =>
      (walk v7 v8).foldl (fun intersects triangle =>
        if intersects then intersects
        else
          segmentIntersectsTriangle l v7 v8 (triAt g triangle).1
            (triAt g triangle).2.1 (triAt g triangle).2.2) false

/-- modelIntersectsSegment from the source: both endpoints are transformed
into model space by the inverse matrix, each mesh is walked, and the first
mesh with a hit returns true.  l stands for Math.sqrt of the model-space
squared segment length (shared by every mesh, since v7 and v8 are fixed
per call). -/
def modelIntersectsSegment (l : ℚ) (model : DwgModel3d) (inverse : Mat4)
    (a b : Vec3) : Bool :=
  model.meshes.any (fun mesh =>
    meshIntersects l mesh (inverse.mulv3 a) (inverse.mulv3 b))

/-- The type tag of a drawing object as the predicates test it. -/
inductive DwgType where
  | model3d : DwgType
  | alignment : DwgType
  | other : DwgType
deriving DecidableEq, Repr

/-- A candidate object yielded by the spatial-index query: its identity,
type tag, the layer it lies on and its 3D model payload. -/
structure Candidate where
  id : ℕ
  type : DwgType
  layerId : ℕ
  model : DwgModel3d

/-- The obstacle predicate of the path-to-object sweep (part_002): a
candidate is rejected when it is the observed object itself or is not a 3D
model; otherwise its geometry is tested against the observer-to-centroid
segment.  The WeakMap inverse-matrix cache memoizes a pure function of the
model, embedded as the function inv; lenOf gives each model's model-space
segment length (the square-root parameter of the walk). -/
def objectsObstaclePred (observed : Candidate) (inv : DwgModel3d → Mat4)
    (lenOf : DwgModel3d → ℚ) (viewPoint objectCenter : Vec3)
    (obj : Candidate) : Bool :=
  if obj.id = observed.id ∨ obj.type ≠ DwgType.model3d then false
  else
    modelIntersectsSegment (lenOf obj.model) obj.model (inv obj.model)
      viewPoint objectCenter

/-- The obstacle predicate of the path-to-path sweep (part_001): a
candidate is rejected when it is not a 3D model or its layer is not among
the obstacle layers; otherwise its geometry is tested. -/
def alignmentObstaclePred (obstacleLayers : List ℕ) (inv : DwgModel3d → Mat4)
    (lenOf : DwgModel3d → ℚ) (viewPoint objectPoint : Vec3)
    (obj : Candidate) : Bool :=
  if obj.type ≠ DwgType.model3d ∨ ¬ (obj.layerId ∈ obstacleLayers) then false
  else
    modelIntersectsSegment (lenOf obj.model) obj.model (inv obj.model)
      viewPoint objectPoint

/-- A model whose single triangle is crossed by the segment from
(0, 0, 1) to (0, 0, 0); its spatial structure enumerates that triangle. -/
def c10model : DwgModel3d where
  meshes := [⟨some ⟨[-1, -1, 0, 3, -1, 0, -1, 3, 0], [0, 1, 2],
    some (fun _ _ => [0])⟩⟩]
  matrix := Mat4.id

/-- A concrete candidate carrying that model on layer 4. -/
def c10obj : Candidate := ⟨7, DwgType.model3d, 4, c10model⟩

/-- An observed object distinct from the candidate. -/
def c10observed : Candidate := ⟨1, DwgType.model3d, 9, c10model⟩

/-- C10: the path-to-object obstacle predicate accepts a candidate exactly
when it is a 3D model distinct from the observed object whose geometry
intersects the observer-to-centroid segment; the observed object itself is
always rejected (it can never occlude its own visibility); the predicate
ignores the candidate's layer (no obstacle-layer filtering), whereas the
path-to-path predicate does filter by layer: the same intersecting 3D
model candidate is accepted by the objects predicate and by the alignment
predicate when its layer is listed, but rejected by the alignment
predicate when the obstacle-layer set is empty. -/
theorem C10_objects_obstacle_predicate (observed : Candidate)
    (inv : DwgModel3d → Mat4) (lenOf : DwgModel3d → ℚ)
    (viewPoint objectCenter : Vec3) (obj : Candidate) (layer1 layer2 : ℕ) :
    (objectsObstaclePred observed inv lenOf viewPoint objectCenter obj = true ↔
      (obj.id ≠ observed.id ∧ obj.type = DwgType.model3d ∧
       modelIntersectsSegment (lenOf obj.model) obj.model (inv obj.model)
         viewPoint objectCenter = true)) ∧
    objectsObstaclePred observed inv lenOf viewPoint objectCenter observed =
      false ∧
    objectsObstaclePred observed inv lenOf viewPoint objectCenter
        ⟨obj.id, obj.type, layer1, obj.model⟩ =
      objectsObstaclePred observed inv lenOf viewPoint objectCenter
        ⟨obj.id, obj.type, layer2, obj.model⟩ ∧
    objectsObstaclePred c10observed (fun _ => Mat4.id) (fun _ => 1)
      ⟨0, 0, 1⟩ ⟨0, 0, 0⟩ c10obj = true ∧
    alignmentObstaclePred [4] (fun _ => Mat4.id) (fun _ => 1)
      ⟨0, 0, 1⟩ ⟨0, 0, 0⟩ c10obj = true ∧
    alignmentObstaclePred [] (fun _ => Mat4.id) (fun _ => 1)
      ⟨0, 0, 1⟩ ⟨0, 0, 0⟩ c10obj = false := by
  refine ⟨?_, ?_, ?_, ?_, ?_, ?_⟩
  · unfold objectsObstaclePred
    by_cases h : obj.id = observed.id ∨ obj.type ≠ DwgType.model3d
    · rw [if_pos h]
      constructor
      · intro hf; exact absurd hf (by simp)
      · rintro ⟨h1, h2, _⟩
        rcases h with h | h
        · exact absurd h h1
        · exact absurd h2 h
    · rw [if_neg h]
      push_neg at h
      constructor
      · intro hm; exact ⟨h.1, h.2, hm⟩
      · rintro ⟨_, _, hm⟩; exact hm
  · unfold objectsObstaclePred
    rw [if_pos (Or.inl rfl)]
  · unfold objectsObstaclePred
    rfl
  · norm_num [objectsObstaclePred, c10observed, c10obj, c10model,
      modelIntersectsSegment, meshIntersects, triAt, vertexAt,
      segmentIntersectsTriangle, Mat4.mulv3, Mat4.id, Vec3.dot, Vec3.sub,
      Vec3.cross, Vec3.smul, EPS, EPS2, List.any, List.foldl]
  · norm_num [alignmentObstaclePred, c10obj, c10model,
      modelIntersectsSegment, meshIntersects, triAt, vertexAt,
      segmentIntersectsTriangle, Mat4.mulv3, Mat4.id, Vec3.dot, Vec3.sub,
      Vec3.cross, Vec3.smul, EPS, EPS2, List.any, List.foldl]
  · norm_num [alignmentObstaclePred, c10obj]

/-! ## The visibility sweep engines: range accumulation

The per-station geometry of the two sweeps (positions, distances, query
results) is abstracted into one input record per scanned station, and the
sweeps' range-accumulation state machines (part_001 lines 350-396,
part_002 lines 374-425) are embedded as recursions over the station list,
emitting the same diagnostics fields the source pushes.  Obstacle WeakSets
are embedded as lists whose membership is the set membership. -/

/-- Per-station input of the path-to-object sweep: the station, the
observer-to-centroid distance and the 2D cosine between path tangent and
view direction computed there, and the models the obstacle query would
report at that station (the source creates the query generator only when
no gate trips; the record carries its would-be result either way). -/
structure ObjStationIn where
  station : ℚ
  dist : ℚ
  cosv : ℚ
  obs : List ℕ
deriving DecidableEq, Repr

/-- The three gates of the objects sweep, in source order: distance beyond
viewDistance, negative cosine (angle beyond 90 degrees), the object's own
path station behind the observer. -/
def objOutOfView (viewDistance objectStation : ℚ) (x : ObjStationIn) : Bool :=
  decide (x.dist > viewDistance) || decide (x.cosv < 0) ||
    decide (objectStation < x.station)

/-- A violation station of the objects sweep: the negation of the source's
close condition `outOfView || obstacle.done`: no gate trips and the query
reports at least one obstacle. -/
def objViolation (viewDistance objectStation : ℚ) (x : ObjStationIn) : Bool :=
  !(objOutOfView viewDistance objectStation x || x.obs.isEmpty)

/-- An emitted range of the objects sweep: the rangeStart and rangeEnd
diagnostic fields, the station its message closes at (the current station
on a mid-path close, the path length at the end), and the obstacle set. -/
structure ObjRange where
  rangeStart : ℚ
  rangeEnd : ℚ
  closeStation : ℚ
  obstacles : List ℕ
deriving DecidableEq, Repr

/-- The open-range state of the objects sweep; rangeStart is the source's
-1 sentinel when no range is open. -/
structure ObjState where
  rangeStart : ℚ
  rangeEnd : ℚ
  obstacles : List ℕ
deriving DecidableEq, Repr

/-- The state at the start of each path: rangeStart = rangeEnd = -1, no
obstacles. -/
def objFresh : ObjState := ⟨-1, -1, []⟩

/-- The station loop of the objects sweep: on `outOfView || obstacle.done`
an open range is emitted and the state reset (a closed state is left as
is, exactly as in the source); otherwise the range is opened or extended,
rangeEnd becomes the current station and the reported models are added.
The final close at path end emits a still-open range with the path length
as the message station. -/
def objSweepGo (viewDistance objectStation len : ℚ) (st : ObjState) :
    List ObjStationIn → List ObjRange
  | [] =>
    if st.rangeStart ≥ 0 then
      [⟨st.rangeStart, st.rangeEnd, len, st.obstacles⟩]
    else []
  | x :: xs =>
    if objOutOfView viewDistance objectStation x || x.obs.isEmpty then
      if st.rangeStart ≥ 0 then
        ⟨st.rangeStart, st.rangeEnd, x.station, st.obstacles⟩ ::
          objSweepGo viewDistance objectStation len objFresh xs
      else objSweepGo viewDistance objectStation len st xs
    else
      objSweepGo viewDistance objectStation len
        ⟨if st.rangeStart < 0 then x.station else st.rangeStart, x.station,
         st.obstacles ++ x.obs⟩ xs

/-- The objects sweep over one path, starting from the fresh state. -/
def objSweep (viewDistance objectStation len : ℚ)
    (ins : List ObjStationIn) : List ObjRange :=
  objSweepGo viewDistance objectStation len objFresh ins

/-- Per-station input of the path-to-path sweep: the observer station, the
outcome of the inner target-stepping loop there (whether a blocking model
was found before the distance cutoff), the target station at first
obstruction, and the models reported there. -/
structure AlStationIn where
  station : ℚ
  hasObstacles : Bool
  objectStation : ℚ
  obs : List ℕ
deriving DecidableEq, Repr

/-- An emitted range of the alignment sweep: its message names the
interval from rangeStart to the closing station (the current non-violating
station on a mid-path close, the path length at the end); the diagnostic
carries the keyframes and the obstacle set. -/
structure AlRange where
  rangeStart : ℚ
  closeStation : ℚ
  keyFrames : List (ℚ × ℚ)
  obstacles : List ℕ
deriving DecidableEq, Repr

/-- The open-range state of the alignment sweep. -/
structure AlState where
  rangeStart : ℚ
  keyFrames : List (ℚ × ℚ)
  obstacles : List ℕ
deriving DecidableEq, Repr

/-- The state at the start of each path. -/
def alFresh : AlState := ⟨-1, [], []⟩

/-- The keyframe append-or-merge of the source (part_001 lines 373-378):
when at least two keyframes exist and the last two target stations differ
by less than 0.01, the last keyframe is overwritten in place with the
current observer and target stations; otherwise a new keyframe is
appended. -/
def kfStep (kf : List (ℚ × ℚ)) (station objectStation : ℚ) : List (ℚ × ℚ) :=
  if kf.length > 1 ∧
      |(kf.getD (kf.length - 1) (0, 0)).2 -
        (kf.getD (kf.length - 2) (0, 0)).2| < 1 / 100 then
    kf.take (kf.length - 1) ++ [(station, objectStation)]
  else kf ++ [(station, objectStation)]

/-- The station loop of the alignment sweep: a station without obstacles
emits and resets an open range (message closing at the current station); a
station with obstacles opens or extends the range and appends or merges a
keyframe; a range still open at path end is emitted closing at the path
length. -/
def alSweepGo (len : ℚ) (st : AlState) : List AlStationIn → List AlRange
  | [] =>
    if st.rangeStart ≥ 0 then
      [⟨st.rangeStart, len, st.keyFrames, st.obstacles⟩]
    else []
  | x :: xs =>
    if !x.hasObstacles then
      if st.rangeStart ≥ 0 then
        ⟨st.rangeStart, x.station, st.keyFrames, st.obstacles⟩ ::
          alSweepGo len alFresh xs
      else alSweepGo len st xs
    else
      alSweepGo len
        ⟨if st.rangeStart < 0 then x.station else st.rangeStart,
         kfStep st.keyFrames x.station x.objectStation,
         st.obstacles ++ x.obs⟩ xs

/-- The alignment sweep over one path, starting from the fresh state. -/
def alSweep (len : ℚ) (ins : List AlStationIn) : List AlRange :=
  alSweepGo len alFresh ins

/-- C1 counterexample: with view distance 300 and the object at station
100, the station sequence (0: obstructed by model 5), (1: distance 400,
gated), (2: obstructed by model 6) holds three consecutive non-visible
stations in the claim's sense, which the claim says accumulate into one
open violation range; the sweep instead closes the range at the gated
station and emits two ranges.  A lone gated station yields no violation
range at all. -/
theorem C1_counterexample :
    objSweep 300 100 10 [⟨0, 10, 1, [5]⟩, ⟨1, 400, 1, []⟩, ⟨2, 10, 1, [6]⟩] =
      [⟨0, 0, 1, [5]⟩, ⟨2, 2, 10, [6]⟩] ∧
    objOutOfView 300 100 ⟨1, 400, 1, []⟩ = true ∧
    objViolation 300 100 ⟨0, 10, 1, [5]⟩ = true ∧
    objViolation 300 100 ⟨2, 10, 1, [6]⟩ = true ∧
    objSweep 300 100 10 [⟨0, 400, 1, []⟩] = [] := by
  refine ⟨?_, ?_, ?_, ?_, ?_⟩ <;>
    norm_num [objSweep, objSweepGo, objFresh, objOutOfView, objViolation]

/-- C2 counterexample: in the alignment sweep over stations (0: violation,
object at 5, model 7) and (1: no obstacles), the emitted range runs from 0
to the closing station 1, yet station 1, inside the closed interval
[0, 1], was not a violation — against the claim that every station inside
the closed interval of an emitted range was a detected violation. -/
theorem C2_counterexample :
    alSweep 10 [⟨0, true, 5, [7]⟩, ⟨1, false, 0, []⟩] =
      [⟨0, 1, [(0, 5)], [7]⟩] ∧
    (⟨1, false, 0, []⟩ : AlStationIn).hasObstacles = false ∧
    ((0 : ℚ) ≤ 1 ∧ (1 : ℚ) ≤ 1) := by
  refine ⟨?_, rfl, by norm_num⟩
  norm_num [alSweep, alSweepGo, alFresh, kfStep]

/-- C3 counterexample: three violating stations all recording the same
target station 50 produce a range whose keyframe sequence has two
keyframes, (0, 50) and (2, 50), not the single keyframe the claim
states. -/
theorem C3_counterexample :
    alSweep 10 [⟨0, true, 50, []⟩, ⟨1, true, 50, []⟩, ⟨2, true, 50, []⟩] =
      [⟨0, 10, [(0, 50), (2, 50)], []⟩] ∧
    ([((0 : ℚ), (50 : ℚ)), (2, 50)].length = 1 → False) := by
  refine ⟨?_, by norm_num⟩
  norm_num [alSweep, alSweepGo, alFresh, kfStep]

/-- The last station of a cons list defaults through its head. -/
lemma getLastD_station_cons (x : AlStationIn) (xs : List AlStationIn) (d : ℚ) :
    (((x :: xs).getLast?).map (fun y => y.station)).getD d =
      ((xs.getLast?).map (fun y => y.station)).getD x.station := by
  cases xs with
  | nil => rfl
  | cons y ys =>
    rw [List.getLast?_cons_cons]
    have h : ((y :: ys).getLast?).isSome := by
      rw [List.getLast?_isSome]
      simp
    obtain ⟨z, hz⟩ := Option.isSome_iff_exists.mp h
    rw [hz]
    rfl

lemma alConst_go2 (len T : ℚ) (ins : List AlStationIn) :
    ∀ (rs a b : ℚ) (obsl : List ℕ), rs ≥ 0 →
    (∀ x ∈ ins, x.hasObstacles = true ∧ x.objectStation = T) →
    alSweepGo len ⟨rs, [(a, T), (b, T)], obsl⟩ ins =
      [⟨rs, len,
        [(a, T), ((((ins.getLast?).map (fun y => y.station)).getD b), T)],
        obsl ++ ins.bind (fun y => y.obs)⟩] := by
  induction ins with
  | nil =>
    intro rs a b obsl hrs _
    simp [alSweepGo, hrs]
  | cons x xs ih =>
    intro rs a b obsl hrs hall
    have hx := hall x (List.mem_cons_self x xs)
    have hkf : kfStep [(a, T), (b, T)] x.station x.objectStation =
        [(a, T), (x.station, T)] := by
      rw [hx.2, kfStep, if_pos]
      · rfl
      · refine ⟨by norm_num, ?_⟩
        simp only [List.length_cons, List.length_nil]
        norm_num [List.getD]
    simp only [alSweepGo, hx.1, Bool.not_true, if_neg (by decide : ¬ false = true)]
    rw [if_neg (not_lt_of_le hrs), hkf]
    rw [ih rs a x.station (obsl ++ x.obs) hrs
      (fun y hy => hall y (List.mem_cons_of_mem x hy))]
    rw [getLastD_station_cons]
    simp [List.append_assoc]

lemma alConst_go1 (len T : ℚ) (ins : List AlStationIn) :
    ∀ (rs a : ℚ) (obsl : List ℕ), rs ≥ 0 →
    (∀ x ∈ ins, x.hasObstacles = true ∧ x.objectStation = T) →
    alSweepGo len ⟨rs, [(a, T)], obsl⟩ ins =
      [⟨rs, len,
        (if ins = [] then [(a, T)]
         else [(a, T),
           ((((ins.getLast?).map (fun y => y.station)).getD a), T)]),
        obsl ++ ins.bind (fun y => y.obs)⟩] := by
  cases ins with
  | nil =>
    intro rs a obsl hrs _
    simp [alSweepGo, hrs]
  | cons x xs =>
    intro rs a obsl hrs hall
    have hx := hall x (List.mem_cons_self x xs)
    have hkf : kfStep [(a, T)] x.station x.objectStation =
        [(a, T), (x.station, T)] := by
      rw [hx.2, kfStep, if_neg]
      · rfl
      · rintro ⟨h1, _⟩
        norm_num at h1
    simp only [alSweepGo, hx.1, Bool.not_true, if_neg (by decide : ¬ false = true)]
    rw [if_neg (not_lt_of_le hrs), hkf]
    rw [alConst_go2 len T xs rs a x.station (obsl ++ x.obs) hrs
      (fun y hy => hall y (List.mem_cons_of_mem x hy))]
    rw [getLastD_station_cons]
    simp [List.append_assoc]

/-- C3 amended: for a violation range whose recorded target station is the
same value T at every observer station, the keyframe sequence is pinned to
two keyframes when the range spans at least two observer stations — the
first at the range's first station, the last extended in place to the
range's final station — and to one keyframe when it spans a single
station.  The merge guard `rangeKeyFrames.length > 1` never merges the
second keyframe into the first, so the count is exactly
min(stations, 2), not 1. -/
theorem C3_constant_target_keyframes (len T : ℚ) (ins : List AlStationIn)
    (hne : ins ≠ [])
    (hpos : ∀ x ∈ ins, 0 ≤ x.station)
    (hall : ∀ x ∈ ins, x.hasObstacles = true ∧ x.objectStation = T) :
    ∃ r : AlRange, alSweep len ins = [r] ∧
      r.keyFrames =
        (if ins.length = 1 then
          [((((ins.head?).map (fun y => y.station)).getD 0), T)]
         else
          [((((ins.head?).map (fun y => y.station)).getD 0), T),
           ((((ins.getLast?).map (fun y => y.station)).getD 0), T)]) := by
  cases ins with
  | nil => exact absurd rfl hne
  | cons x xs =>
    have hx := hall x (List.mem_cons_self x xs)
    have hxpos : 0 ≤ x.station := hpos x (List.mem_cons_self x xs)
    have hkf : kfStep [] x.station x.objectStation = [(x.station, T)] := by
      rw [hx.2, kfStep, if_neg]
      · rfl
      · rintro ⟨h1, _⟩
        norm_num at h1
    unfold alSweep
    simp only [alSweepGo, hx.1, Bool.not_true, alFresh,
      if_neg (by decide : ¬ false = true)]
    rw [if_pos (by norm_num), hkf]
    rw [alConst_go1 len T xs x.station x.station ([] ++ x.obs) hxpos
      (fun y hy => hall y (List.mem_cons_of_mem x hy))]
    cases xs with
    | nil => exact ⟨_, rfl, by simp⟩
    | cons y ys =>
      refine ⟨_, rfl, ?_⟩
      have hlen : (x :: y :: ys).length = 1 → False := by simp
      simp only [if_neg (by simp : ¬ (y :: ys) = []),
        if_neg (by simp : ¬ (x :: y :: ys).length = 1)]
      rw [getLastD_station_cons x (y :: ys)]
      simp

/-- Witness for C3 amended at the three-station constant-target input. -/
theorem C3_constant_target_keyframes_witness :
    ([⟨0, true, 50, []⟩, ⟨1, true, 50, []⟩, ⟨2, true, 50, []⟩] :
        List AlStationIn) ≠ [] ∧
    (∃ r : AlRange,
      alSweep 10 [⟨0, true, 50, []⟩, ⟨1, true, 50, []⟩, ⟨2, true, 50, []⟩] =
        [r] ∧
      r.keyFrames =
        (if ([⟨0, true, 50, []⟩, ⟨1, true, 50, []⟩, ⟨2, true, 50, []⟩] :
            List AlStationIn).length = 1 then
          [(((([⟨0, true, 50, []⟩, ⟨1, true, 50, []⟩, ⟨2, true, 50, []⟩] :
              List AlStationIn).head?).map (fun y => y.station)).getD 0,
            (50 : ℚ))]
         else
          [(((([⟨0, true, 50, []⟩, ⟨1, true, 50, []⟩, ⟨2, true, 50, []⟩] :
              List AlStationIn).head?).map (fun y => y.station)).getD 0,
            (50 : ℚ)),
           (((([⟨0, true, 50, []⟩, ⟨1, true, 50, []⟩, ⟨2, true, 50, []⟩] :
              List AlStationIn).getLast?).map (fun y => y.station)).getD 0,
            50)])) :=
  ⟨by simp,
    C3_constant_target_keyframes 10 50
      [⟨0, true, 50, []⟩, ⟨1, true, 50, []⟩, ⟨2, true, 50, []⟩]
      (by simp)
      (by intro x hx; fin_cases hx <;> norm_num)
      (by intro x hx; fin_cases hx <;> exact ⟨rfl, rfl⟩)⟩

/-! ### Branch equations of the sweep recursions -/

lemma objViolation_not (viewDistance objectStation : ℚ) (x : ObjStationIn) :
    (objOutOfView viewDistance objectStation x || x.obs.isEmpty) =
      !objViolation viewDistance objectStation x := by
  simp [objViolation]

lemma objSweepGo_nil (vd os len : ℚ) (st : ObjState) :
    objSweepGo vd os len st [] =
      if st.rangeStart ≥ 0 then
        [⟨st.rangeStart, st.rangeEnd, len, st.obstacles⟩]
      else [] := rfl

lemma objSweepGo_extend (vd os len : ℚ) (st : ObjState) (x : ObjStationIn)
    (xs : List ObjStationIn) (hv : objViolation vd os x = true) :
    objSweepGo vd os len st (x :: xs) =
      objSweepGo vd os len
        ⟨if st.rangeStart < 0 then x.station else st.rangeStart, x.station,
         st.obstacles ++ x.obs⟩ xs := by
  have hc : (objOutOfView vd os x || x.obs.isEmpty) = false := by
    rw [objViolation_not, hv]
    rfl
  simp [objSweepGo, hc]

lemma objSweepGo_close_open (vd os len : ℚ) (st : ObjState)
    (x : ObjStationIn) (xs : List ObjStationIn)
    (hv : objViolation vd os x = false) (hst : st.rangeStart ≥ 0) :
    objSweepGo vd os len st (x :: xs) =
      ⟨st.rangeStart, st.rangeEnd, x.station, st.obstacles⟩ ::
        objSweepGo vd os len objFresh xs := by
  have hc : (objOutOfView vd os x || x.obs.isEmpty) = true := by
    rw [objViolation_not, hv]
    rfl
  simp [objSweepGo, hc, hst]

lemma objSweepGo_close_closed (vd os len : ℚ) (st : ObjState)
    (x : ObjStationIn) (xs : List ObjStationIn)
    (hv : objViolation vd os x = false) (hst : ¬ st.rangeStart ≥ 0) :
    objSweepGo vd os len st (x :: xs) = objSweepGo vd os len st xs := by
  have hc : (objOutOfView vd os x || x.obs.isEmpty) = true := by
    rw [objViolation_not, hv]
    rfl
  simp [objSweepGo, hc, hst]

lemma alSweepGo_nil (len : ℚ) (st : AlState) :
    alSweepGo len st [] =
      if st.rangeStart ≥ 0 then
        [⟨st.rangeStart, len, st.keyFrames, st.obstacles⟩]
      else [] := rfl

lemma alSweepGo_extend (len : ℚ) (st : AlState) (x : AlStationIn)
    (xs : List AlStationIn) (hv : x.hasObstacles = true) :
    alSweepGo len st (x :: xs) =
      alSweepGo len
        ⟨if st.rangeStart < 0 then x.station else st.rangeStart,
         kfStep st.keyFrames x.station x.objectStation,
         st.obstacles ++ x.obs⟩ xs := by
  simp [alSweepGo, hv]

lemma alSweepGo_close_open (len : ℚ) (st : AlState) (x : AlStationIn)
    (xs : List AlStationIn) (hv : x.hasObstacles = false)
    (hst : st.rangeStart ≥ 0) :
    alSweepGo len st (x :: xs) =
      ⟨st.rangeStart, x.station, st.keyFrames, st.obstacles⟩ ::
        alSweepGo len alFresh xs := by
  simp [alSweepGo, hv, hst]

lemma alSweepGo_close_closed (len : ℚ) (st : AlState) (x : AlStationIn)
    (xs : List AlStationIn) (hv : x.hasObstacles = false)
    (hst : ¬ st.rangeStart ≥ 0) :
    alSweepGo len st (x :: xs) = alSweepGo len st xs := by
  simp [alSweepGo, hv, hst]

/-! ### Run structure of the objects sweep -/

lemma objL_start (vd os len : ℚ) (ins : List ObjStationIn) :
    ∀ (st : ObjState), ∀ r ∈ objSweepGo vd os len st ins,
    (st.rangeStart ≥ 0 ∧ r.rangeStart = st.rangeStart) ∨
      ∃ x ∈ ins, objViolation vd os x = true ∧ r.rangeStart = x.station := by
  induction ins with
  | nil =>
    intro st r hr
    rw [objSweepGo_nil] at hr
    by_cases hst : st.rangeStart ≥ 0
    · rw [if_pos hst] at hr
      rw [List.mem_singleton.mp hr]
      exact Or.inl ⟨hst, rfl⟩
    · rw [if_neg hst] at hr
      exact absurd hr (List.not_mem_nil r)
  | cons x xs ih =>
    intro st r hr
    by_cases hv : objViolation vd os x = true
    · rw [objSweepGo_extend vd os len st x xs hv] at hr
      rcases ih _ r hr with ⟨_, hstart⟩ | ⟨y, hy, hvy, hsy⟩
      · by_cases hst : st.rangeStart < 0
        · rw [if_pos hst] at hstart
          exact Or.inr ⟨x, List.mem_cons_self x xs, hv, hstart⟩
        · rw [if_neg hst] at hstart
          exact Or.inl ⟨le_of_not_lt hst, hstart⟩
      · exact Or.inr ⟨y, List.mem_cons_of_mem x hy, hvy, hsy⟩
    · rw [Bool.not_eq_true] at hv
      by_cases hst : st.rangeStart ≥ 0
      · rw [objSweepGo_close_open vd os len st x xs hv hst] at hr
        rcases List.mem_cons.mp hr with rfl | hr2
        · exact Or.inl ⟨hst, rfl⟩
        · rcases ih objFresh r hr2 with ⟨habs, _⟩ | ⟨y, hy, hvy, hsy⟩
          · exact absurd habs (by norm_num [objFresh])
          · exact Or.inr ⟨y, List.mem_cons_of_mem x hy, hvy, hsy⟩
      · rw [objSweepGo_close_closed vd os len st x xs hv hst] at hr
        rcases ih st r hr with hl | ⟨y, hy, hvy, hsy⟩
        · exact Or.inl hl
        · exact Or.inr ⟨y, List.mem_cons_of_mem x hy, hvy, hsy⟩

lemma objL_mono (vd os len : ℚ) (ins : List ObjStationIn) :
    ∀ (st : ObjState),
    ins.Pairwise (fun a b => a.station < b.station) →
    (st.rangeStart ≥ 0 →
      st.rangeStart ≤ st.rangeEnd ∧ ∀ y ∈ ins, st.rangeEnd < y.station) →
    ∀ r ∈ objSweepGo vd os len st ins, r.rangeStart ≤ r.rangeEnd := by
  induction ins with
  | nil =>
    intro st _ hinv r hr
    rw [objSweepGo_nil] at hr
    by_cases hst : st.rangeStart ≥ 0
    · rw [if_pos hst] at hr
      rw [List.mem_singleton.mp hr]
      exact (hinv hst).1
    · rw [if_neg hst] at hr
      exact absurd hr (List.not_mem_nil r)
  | cons x xs ih =>
    intro st hord hinv r hr
    obtain ⟨hhead, htail⟩ := List.pairwise_cons.mp hord
    by_cases hv : objViolation vd os x = true
    · rw [objSweepGo_extend vd os len st x xs hv] at hr
      refine ih _ htail ?_ r hr
      intro _
      constructor
      · by_cases hst : st.rangeStart < 0
        · rw [if_pos hst]
        · rw [if_neg hst]
          have h1 := hinv (le_of_not_lt hst)
          exact le_of_lt (lt_of_le_of_lt h1.1
            (h1.2 x (List.mem_cons_self x xs)))
      · intro y hy
        exact hhead y hy
    · rw [Bool.not_eq_true] at hv
      by_cases hst : st.rangeStart ≥ 0
      · rw [objSweepGo_close_open vd os len st x xs hv hst] at hr
        rcases List.mem_cons.mp hr with rfl | hr2
        · exact (hinv hst).1
        · refine ih objFresh htail ?_ r hr2
          intro habs
          exact absurd habs (by norm_num [objFresh])
      · rw [objSweepGo_close_closed vd os len st x xs hv hst] at hr
        refine ih st htail ?_ r hr
        intro habs
        exact absurd habs hst

lemma objL_interior (vd os len : ℚ) (ins : List ObjStationIn) :
    ∀ (st : ObjState),
    ins.Pairwise (fun a b => a.station < b.station) →
    (st.rangeStart ≥ 0 →
      st.rangeStart ≤ st.rangeEnd ∧ ∀ y ∈ ins, st.rangeEnd < y.station) →
    ∀ r ∈ objSweepGo vd os len st ins, ∀ x ∈ ins,
      r.rangeStart ≤ x.station → x.station ≤ r.rangeEnd →
      objViolation vd os x = true := by
  induction ins with
  | nil =>
    intro st _ _ r _ x hx
    exact absurd hx (List.not_mem_nil x)
  | cons z zs ih =>
    intro st hord hinv r hr x hx h1 h2
    obtain ⟨hhead, htail⟩ := List.pairwise_cons.mp hord
    by_cases hv : objViolation vd os z = true
    · rw [objSweepGo_extend vd os len st z zs hv] at hr
      rcases List.mem_cons.mp hx with rfl | hx2
      · exact hv
      · refine ih _ htail ?_ r hr x hx2 h1 h2
        intro _
        constructor
        · by_cases hst : st.rangeStart < 0
          · rw [if_pos hst]
          · rw [if_neg hst]
            have h3 := hinv (le_of_not_lt hst)
            exact le_of_lt (lt_of_le_of_lt h3.1
              (h3.2 z (List.mem_cons_self z zs)))
        · intro y hy
          exact hhead y hy
    · rw [Bool.not_eq_true] at hv
      by_cases hst : st.rangeStart ≥ 0
      · rw [objSweepGo_close_open vd os len st z zs hv hst] at hr
        rcases List.mem_cons.mp hr with rfl | hr2
        · -- the emitted range ends before every station of the input
          exact absurd (lt_of_le_of_lt h2 ((hinv hst).2 x hx)) (lt_irrefl _)
        · rcases List.mem_cons.mp hx with rfl | hx2
          · -- x is the closing station: every later range starts after it
            rcases objL_start vd os len zs objFresh r hr2 with ⟨habs, _⟩ |
              ⟨y, hy, _, hsy⟩
            · exact absurd habs (by norm_num [objFresh])
            · rw [hsy] at h1
              exact absurd (lt_of_lt_of_le (hhead y hy) h1) (lt_irrefl _)
          · refine ih objFresh htail ?_ r hr2 x hx2 h1 h2
            intro habs
            exact absurd habs (by norm_num [objFresh])
      · rw [objSweepGo_close_closed vd os len st z zs hv hst] at hr
        rcases List.mem_cons.mp hx with rfl | hx2
        · rcases objL_start vd os len zs st r hr with ⟨habs, _⟩ |
            ⟨y, hy, _, hsy⟩
          · exact absurd habs hst
          · rw [hsy] at h1
            exact absurd (lt_of_lt_of_le (hhead y hy) h1) (lt_irrefl _)
        · refine ih st htail ?_ r hr x hx2 h1 h2
          intro habs
          exact absurd habs hst

lemma objL_chain (vd os len : ℚ) (ins : List ObjStationIn) :
    ∀ (st : ObjState),
    ins.Pairwise (fun a b => a.station < b.station) →
    (st.rangeStart ≥ 0 →
      st.rangeStart ≤ st.rangeEnd ∧ ∀ y ∈ ins, st.rangeEnd < y.station) →
    List.Chain' (fun r1 r2 => r1.rangeEnd < r2.rangeStart)
      (objSweepGo vd os len st ins) := by
  induction ins with
  | nil =>
    intro st _ _
    rw [objSweepGo_nil]
    by_cases hst : st.rangeStart ≥ 0
    · rw [if_pos hst]
      exact List.chain'_singleton _
    · rw [if_neg hst]
      exact List.chain'_nil
  | cons x xs ih =>
    intro st hord hinv
    obtain ⟨hhead, htail⟩ := List.pairwise_cons.mp hord
    by_cases hv : objViolation vd os x = true
    · rw [objSweepGo_extend vd os len st x xs hv]
      refine ih _ htail ?_
      intro _
      constructor
      · by_cases hst : st.rangeStart < 0
        · rw [if_pos hst]
        · rw [if_neg hst]
          have h1 := hinv (le_of_not_lt hst)
          exact le_of_lt (lt_of_le_of_lt h1.1
            (h1.2 x (List.mem_cons_self x xs)))
      · intro y hy
        exact hhead y hy
    · rw [Bool.not_eq_true] at hv
      by_cases hst : st.rangeStart ≥ 0
      · rw [objSweepGo_close_open vd os len st x xs hv hst]
        rw [List.chain'_cons']
        constructor
        · intro r hhd
          have hr : r ∈ objSweepGo vd os len objFresh xs :=
            List.mem_of_mem_head? hhd
          rcases objL_start vd os len xs objFresh r hr with ⟨habs, _⟩ |
            ⟨y, hy, _, hsy⟩
          · exact absurd habs (by norm_num [objFresh])
          · rw [hsy]
            exact (hinv hst).2 y (List.mem_cons_of_mem x hy)
        · refine ih objFresh htail ?_
          intro habs
          exact absurd habs (by norm_num [objFresh])
      · rw [objSweepGo_close_closed vd os len st x xs hv hst]
        refine ih st htail ?_
        intro habs
        exact absurd habs hst

lemma objL_open (vd os len : ℚ) (ins : List ObjStationIn) :
    ∀ (st : ObjState), st.rangeStart ≥ 0 →
    (∀ y ∈ ins, st.rangeEnd ≤ y.station) →
    ins.Pairwise (fun a b => a.station < b.station) →
    ∃ r rest, objSweepGo vd os len st ins = r :: rest ∧
      r.rangeStart = st.rangeStart ∧ st.rangeEnd ≤ r.rangeEnd := by
  induction ins with
  | nil =>
    intro st hst _ _
    refine ⟨⟨st.rangeStart, st.rangeEnd, len, st.obstacles⟩, [], ?_, rfl,
      le_refl _⟩
    rw [objSweepGo_nil, if_pos hst]
  | cons x xs ih =>
    intro st hst hend hord
    obtain ⟨hhead, htail⟩ := List.pairwise_cons.mp hord
    by_cases hv : objViolation vd os x = true
    · rw [objSweepGo_extend vd os len st x xs hv]
      have hst2 : ¬ st.rangeStart < 0 := not_lt_of_le hst
      obtain ⟨r, rest, heq, hrs, hre⟩ := ih
        ⟨if st.rangeStart < 0 then x.station else st.rangeStart, x.station,
         st.obstacles ++ x.obs⟩
        (by rw [if_neg hst2]; exact hst)
        (fun y hy => le_of_lt (hhead y hy)) htail
      refine ⟨r, rest, heq, ?_, ?_⟩
      · rw [hrs]
        exact if_neg hst2
      · exact le_trans (hend x (List.mem_cons_self x xs)) hre
    · rw [Bool.not_eq_true] at hv
      rw [objSweepGo_close_open vd os len st x xs hv hst]
      exact ⟨_, _, rfl, rfl, le_refl _⟩

lemma objL_complete (vd os len : ℚ) (ins : List ObjStationIn) :
    ∀ (st : ObjState),
    ins.Pairwise (fun a b => a.station < b.station) →
    (∀ y ∈ ins, 0 ≤ y.station) →
    (st.rangeStart ≥ 0 →
      st.rangeStart ≤ st.rangeEnd ∧ ∀ y ∈ ins, st.rangeEnd < y.station) →
    ∀ x ∈ ins, objViolation vd os x = true →
    ∃ r ∈ objSweepGo vd os len st ins,
      r.rangeStart ≤ x.station ∧ x.station ≤ r.rangeEnd := by
  induction ins with
  | nil =>
    intro st _ _ _ x hx
    exact absurd hx (List.not_mem_nil x)
  | cons z zs ih =>
    intro st hord hpos hinv x hx hvx
    obtain ⟨hhead, htail⟩ := List.pairwise_cons.mp hord
    have hpos2 : ∀ y ∈ zs, 0 ≤ y.station :=
      fun y hy => hpos y (List.mem_cons_of_mem z hy)
    by_cases hv : objViolation vd os z = true
    · rw [objSweepGo_extend vd os len st z zs hv]
      rcases List.mem_cons.mp hx with rfl | hx2
      · obtain ⟨r, rest, heq, hrs, hre⟩ := objL_open vd os len zs
          ⟨if st.rangeStart < 0 then x.station else st.rangeStart, x.station,
           st.obstacles ++ x.obs⟩
          (by
            show (if st.rangeStart < 0 then x.station else st.rangeStart) ≥ 0
            by_cases hst : st.rangeStart < 0
            · rw [if_pos hst]
              exact hpos x hx
            · rw [if_neg hst]
              exact le_of_not_lt hst)
          (fun y hy => le_of_lt (hhead y hy)) htail
        refine ⟨r, by rw [heq]; exact List.mem_cons_self r rest, ?_, hre⟩
        rw [hrs]
        by_cases hst : st.rangeStart < 0
        · rw [if_pos hst]
        · rw [if_neg hst]
          have h1 := hinv (le_of_not_lt hst)
          exact le_of_lt (lt_of_le_of_lt h1.1
            (h1.2 x (List.mem_cons_self x zs)))
      · obtain ⟨r, hr, hle⟩ := ih
          ⟨if st.rangeStart < 0 then z.station else st.rangeStart, z.station,
           st.obstacles ++ z.obs⟩ htail hpos2 (by
          intro _
          refine ⟨?_, fun y hy => hhead y hy⟩
          show (if st.rangeStart < 0 then z.station else st.rangeStart) ≤
            z.station
          by_cases hst : st.rangeStart < 0
          · rw [if_pos hst]
          · rw [if_neg hst]
            have h1 := hinv (le_of_not_lt hst)
            exact le_of_lt (lt_of_le_of_lt h1.1
              (h1.2 z (List.mem_cons_self z zs)))) x hx2 hvx
        exact ⟨r, hr, hle⟩
    · rw [Bool.not_eq_true] at hv
      have hx2 : x ∈ zs := by
        rcases List.mem_cons.mp hx with rfl | hx2
        · rw [hvx] at hv
          exact absurd hv (by simp)
        · exact hx2
      by_cases hst : st.rangeStart ≥ 0
      · rw [objSweepGo_close_open vd os len st z zs hv hst]
        obtain ⟨r, hr, hle⟩ := ih objFresh htail hpos2
          (fun habs => absurd habs (by norm_num [objFresh])) x hx2 hvx
        exact ⟨r, List.mem_cons_of_mem _ hr, hle⟩
      · rw [objSweepGo_close_closed vd os len st z zs hv hst]
        exact ih st htail hpos2 (fun habs => absurd habs hst) x hx2 hvx

lemma objL_obstacles (vd os len : ℚ) (ins : List ObjStationIn) :
    ∀ (st : ObjState),
    ins.Pairwise (fun a b => a.station < b.station) →
    (∀ y ∈ ins, 0 ≤ y.station) →
    (st.rangeStart ≥ 0 →
      st.rangeStart ≤ st.rangeEnd ∧ ∀ y ∈ ins, st.rangeEnd < y.station) →
    (¬ st.rangeStart ≥ 0 → st.obstacles = []) →
    ∀ r ∈ objSweepGo vd os len st ins, ∀ m ∈ r.obstacles,
    (st.rangeStart ≥ 0 ∧ m ∈ st.obstacles ∧ r.rangeStart = st.rangeStart ∧
      st.rangeEnd ≤ r.rangeEnd) ∨
    ∃ x ∈ ins, objViolation vd os x = true ∧ m ∈ x.obs ∧
      r.rangeStart ≤ x.station ∧ x.station ≤ r.rangeEnd := by
  induction ins with
  | nil =>
    intro st _ _ _ _ r hr m hm
    rw [objSweepGo_nil] at hr
    by_cases hst : st.rangeStart ≥ 0
    · rw [if_pos hst] at hr
      rw [List.mem_singleton.mp hr] at hm ⊢
      exact Or.inl ⟨hst, hm, rfl, le_refl _⟩
    · rw [if_neg hst] at hr
      exact absurd hr (List.not_mem_nil r)
  | cons x xs ih =>
    intro st hord hpos hinv hclosed r hr m hm
    obtain ⟨hhead, htail⟩ := List.pairwise_cons.mp hord
    have hpos2 : ∀ y ∈ xs, 0 ≤ y.station :=
      fun y hy => hpos y (List.mem_cons_of_mem x hy)
    by_cases hv : objViolation vd os x = true
    · rw [objSweepGo_extend vd os len st x xs hv] at hr
      have hinv2 : (if st.rangeStart < 0 then x.station else st.rangeStart) ≤
          x.station := by
        by_cases hst : st.rangeStart < 0
        · rw [if_pos hst]
        · rw [if_neg hst]
          have h1 := hinv (le_of_not_lt hst)
          exact le_of_lt (lt_of_le_of_lt h1.1
            (h1.2 x (List.mem_cons_self x xs)))
      rcases ih
          ⟨if st.rangeStart < 0 then x.station else st.rangeStart, x.station,
           st.obstacles ++ x.obs⟩ htail hpos2
          (fun _ => ⟨hinv2, fun y hy => hhead y hy⟩)
          (by
            intro habs
            exfalso
            apply habs
            show (if st.rangeStart < 0 then x.station else st.rangeStart) ≥ 0
            by_cases hst : st.rangeStart < 0
            · rw [if_pos hst]
              exact hpos x (List.mem_cons_self x xs)
            · rw [if_neg hst]
              exact le_of_not_lt hst)
          r hr m hm with ⟨_, hm2, hrs, hre⟩ | ⟨y, hy, hvy, hmy, hys, hye⟩
      · -- the first emitted range absorbed the open state extended at x
        have hre2 : x.station ≤ r.rangeEnd := hre
        by_cases hst : st.rangeStart ≥ 0
        · have hrs2 : r.rangeStart = st.rangeStart := by
            rw [hrs, if_neg (not_lt_of_le hst)]
          have h1 := hinv hst
          have hx1 : st.rangeEnd < x.station :=
            h1.2 x (List.mem_cons_self x xs)
          rcases List.mem_append.mp hm2 with hms | hmx
          · exact Or.inl ⟨hst, hms, hrs2, le_trans (le_of_lt hx1) hre2⟩
          · refine Or.inr ⟨x, List.mem_cons_self x xs, hv, hmx, ?_, hre2⟩
            rw [hrs2]
            exact le_of_lt (lt_of_le_of_lt h1.1 hx1)
        · have hrs2 : r.rangeStart = x.station := by
            rw [hrs, if_pos (lt_of_not_le hst)]
          rw [hclosed hst, List.nil_append] at hm2
          exact Or.inr ⟨x, List.mem_cons_self x xs, hv, hm2, le_of_eq hrs2,
            hre2⟩
      · exact Or.inr ⟨y, List.mem_cons_of_mem x hy, hvy, hmy, hys, hye⟩
    · rw [Bool.not_eq_true] at hv
      by_cases hst : st.rangeStart ≥ 0
      · rw [objSweepGo_close_open vd os len st x xs hv hst] at hr
        rcases List.mem_cons.mp hr with rfl | hr2
        · exact Or.inl ⟨hst, hm, rfl, le_refl _⟩
        · rcases ih objFresh htail hpos2
            (fun habs => absurd habs (by norm_num [objFresh]))
            (fun _ => rfl) r hr2 m hm with ⟨habs, _⟩ |
            ⟨y, hy, hvy, hmy, hys, hye⟩
          · exact absurd habs (by norm_num [objFresh])
          · exact Or.inr ⟨y, List.mem_cons_of_mem x hy, hvy, hmy, hys, hye⟩
      · rw [objSweepGo_close_closed vd os len st x xs hv hst] at hr
        rcases ih st htail hpos2 (fun habs => absurd habs hst) hclosed r hr
            m hm with ⟨habs, _⟩ | ⟨y, hy, hvy, hmy, hys, hye⟩
        · exact absurd habs hst
        · exact Or.inr ⟨y, List.mem_cons_of_mem x hy, hvy, hmy, hys, hye⟩

/-! ### Run structure of the alignment sweep -/

lemma alL_start (len : ℚ) (ins : List AlStationIn) :
    ∀ (st : AlState), ∀ r ∈ alSweepGo len st ins,
    (st.rangeStart ≥ 0 ∧ r.rangeStart = st.rangeStart) ∨
      ∃ x ∈ ins, x.hasObstacles = true ∧ r.rangeStart = x.station := by
  induction ins with
  | nil =>
    intro st r hr
    rw [alSweepGo_nil] at hr
    by_cases hst : st.rangeStart ≥ 0
    · rw [if_pos hst] at hr
      rw [List.mem_singleton.mp hr]
      exact Or.inl ⟨hst, rfl⟩
    · rw [if_neg hst] at hr
      exact absurd hr (List.not_mem_nil r)
  | cons x xs ih =>
    intro st r hr
    by_cases hv : x.hasObstacles = true
    · rw [alSweepGo_extend len st x xs hv] at hr
      rcases ih _ r hr with ⟨_, hstart⟩ | ⟨y, hy, hvy, hsy⟩
      · by_cases hst : st.rangeStart < 0
        · rw [if_pos hst] at hstart
          exact Or.inr ⟨x, List.mem_cons_self x xs, hv, hstart⟩
        · rw [if_neg hst] at hstart
          exact Or.inl ⟨le_of_not_lt hst, hstart⟩
      · exact Or.inr ⟨y, List.mem_cons_of_mem x hy, hvy, hsy⟩
    · rw [Bool.not_eq_true] at hv
      by_cases hst : st.rangeStart ≥ 0
      · rw [alSweepGo_close_open len st x xs hv hst] at hr
        rcases List.mem_cons.mp hr with rfl | hr2
        · exact Or.inl ⟨hst, rfl⟩
        · rcases ih alFresh r hr2 with ⟨habs, _⟩ | ⟨y, hy, hvy, hsy⟩
          · exact absurd habs (by norm_num [alFresh])
          · exact Or.inr ⟨y, List.mem_cons_of_mem x hy, hvy, hsy⟩
      · rw [alSweepGo_close_closed len st x xs hv hst] at hr
        rcases ih st r hr with hl | ⟨y, hy, hvy, hsy⟩
        · exact Or.inl hl
        · exact Or.inr ⟨y, List.mem_cons_of_mem x hy, hvy, hsy⟩

lemma alL_mono (len : ℚ) (ins : List AlStationIn) :
    ∀ (st : AlState),
    ins.Pairwise (fun a b => a.station < b.station) →
    (∀ y ∈ ins, y.station ≤ len) →
    (st.rangeStart ≥ 0 →
      (∀ y ∈ ins, st.rangeStart ≤ y.station) ∧ st.rangeStart ≤ len) →
    ∀ r ∈ alSweepGo len st ins, r.rangeStart ≤ r.closeStation := by
  induction ins with
  | nil =>
    intro st _ _ hinv r hr
    rw [alSweepGo_nil] at hr
    by_cases hst : st.rangeStart ≥ 0
    · rw [if_pos hst] at hr
      rw [List.mem_singleton.mp hr]
      exact (hinv hst).2
    · rw [if_neg hst] at hr
      exact absurd hr (List.not_mem_nil r)
  | cons x xs ih =>
    intro st hord hlen hinv r hr
    obtain ⟨hhead, htail⟩ := List.pairwise_cons.mp hord
    have hlen2 : ∀ y ∈ xs, y.station ≤ len :=
      fun y hy => hlen y (List.mem_cons_of_mem x hy)
    by_cases hv : x.hasObstacles = true
    · rw [alSweepGo_extend len st x xs hv] at hr
      refine ih _ htail hlen2 ?_ r hr
      intro _
      refine ⟨?_, ?_⟩
      · intro y hy
        show (if st.rangeStart < 0 then x.station else st.rangeStart) ≤
          y.station
        by_cases hst : st.rangeStart < 0
        · rw [if_pos hst]
          exact le_of_lt (hhead y hy)
        · rw [if_neg hst]
          exact (hinv (le_of_not_lt hst)).1 y (List.mem_cons_of_mem x hy)
      · show (if st.rangeStart < 0 then x.station else st.rangeStart) ≤ len
        by_cases hst : st.rangeStart < 0
        · rw [if_pos hst]
          exact hlen x (List.mem_cons_self x xs)
        · rw [if_neg hst]
          exact (hinv (le_of_not_lt hst)).2
    · rw [Bool.not_eq_true] at hv
      by_cases hst : st.rangeStart ≥ 0
      · rw [alSweepGo_close_open len st x xs hv hst] at hr
        rcases List.mem_cons.mp hr with rfl | hr2
        · exact (hinv hst).1 x (List.mem_cons_self x xs)
        · refine ih alFresh htail hlen2 ?_ r hr2
          intro habs
          exact absurd habs (by norm_num [alFresh])
      · rw [alSweepGo_close_closed len st x xs hv hst] at hr
        exact ih st htail hlen2 (fun habs => absurd habs hst) r hr

lemma alL_chain (len : ℚ) (ins : List AlStationIn) :
    ∀ (st : AlState),
    ins.Pairwise (fun a b => a.station < b.station) →
    List.Chain' (fun r1 r2 => r1.closeStation < r2.rangeStart)
      (alSweepGo len st ins) := by
  induction ins with
  | nil =>
    intro st _
    rw [alSweepGo_nil]
    by_cases hst : st.rangeStart ≥ 0
    · rw [if_pos hst]
      exact List.chain'_singleton _
    · rw [if_neg hst]
      exact List.chain'_nil
  | cons x xs ih =>
    intro st hord
    obtain ⟨hhead, htail⟩ := List.pairwise_cons.mp hord
    by_cases hv : x.hasObstacles = true
    · rw [alSweepGo_extend len st x xs hv]
      exact ih _ htail
    · rw [Bool.not_eq_true] at hv
      by_cases hst : st.rangeStart ≥ 0
      · rw [alSweepGo_close_open len st x xs hv hst]
        rw [List.chain'_cons']
        refine ⟨?_, ih alFresh htail⟩
        intro r hhd
        have hr : r ∈ alSweepGo len alFresh xs := List.mem_of_mem_head? hhd
        rcases alL_start len xs alFresh r hr with ⟨habs, _⟩ |
          ⟨y, hy, _, hsy⟩
        · exact absurd habs (by norm_num [alFresh])
        · rw [hsy]
          exact hhead y hy
      · rw [alSweepGo_close_closed len st x xs hv hst]
        exact ih st htail

lemma alL_interior (len : ℚ) (ins : List AlStationIn) :
    ∀ (st : AlState),
    ins.Pairwise (fun a b => a.station < b.station) →
    ∀ r ∈ alSweepGo len st ins, ∀ x ∈ ins,
      r.rangeStart ≤ x.station → x.station < r.closeStation →
      x.hasObstacles = true := by
  induction ins with
  | nil =>
    intro st _ r _ x hx
    exact absurd hx (List.not_mem_nil x)
  | cons z zs ih =>
    intro st hord r hr x hx h1 h2
    obtain ⟨hhead, htail⟩ := List.pairwise_cons.mp hord
    by_cases hv : z.hasObstacles = true
    · rw [alSweepGo_extend len st z zs hv] at hr
      rcases List.mem_cons.mp hx with rfl | hx2
      · exact hv
      · exact ih _ htail r hr x hx2 h1 h2
    · rw [Bool.not_eq_true] at hv
      by_cases hst : st.rangeStart ≥ 0
      · rw [alSweepGo_close_open len st z zs hv hst] at hr
        rcases List.mem_cons.mp hr with rfl | hr2
        · -- the closed range's closeStation is z's station itself
          rcases List.mem_cons.mp hx with rfl | hx2
          · exact absurd h2 (lt_irrefl _)
          · exact absurd (lt_trans (hhead x hx2) h2) (lt_irrefl _)
        · rcases List.mem_cons.mp hx with rfl | hx2
          · rcases alL_start len zs alFresh r hr2 with ⟨habs, _⟩ |
              ⟨y, hy, _, hsy⟩
            · exact absurd habs (by norm_num [alFresh])
            · rw [hsy] at h1
              exact absurd (lt_of_lt_of_le (hhead y hy) h1) (lt_irrefl _)
          · exact ih alFresh htail r hr2 x hx2 h1 h2
      · rw [alSweepGo_close_closed len st z zs hv hst] at hr
        rcases List.mem_cons.mp hx with rfl | hx2
        · rcases alL_start len zs st r hr with ⟨habs, _⟩ | ⟨y, hy, _, hsy⟩
          · exact absurd habs hst
          · rw [hsy] at h1
            exact absurd (lt_of_lt_of_le (hhead y hy) h1) (lt_irrefl _)
        · exact ih st htail r hr x hx2 h1 h2

lemma alL_open (len : ℚ) (ins : List AlStationIn) :
    ∀ (st : AlState), st.rangeStart ≥ 0 →
    ∃ r rest, alSweepGo len st ins = r :: rest ∧
      r.rangeStart = st.rangeStart ∧
      (r.closeStation = len ∨ ∃ z ∈ ins, r.closeStation = z.station) := by
  induction ins with
  | nil =>
    intro st hst
    refine ⟨⟨st.rangeStart, len, st.keyFrames, st.obstacles⟩, [], ?_, rfl,
      Or.inl rfl⟩
    rw [alSweepGo_nil, if_pos hst]
  | cons x xs ih =>
    intro st hst
    by_cases hv : x.hasObstacles = true
    · rw [alSweepGo_extend len st x xs hv]
      have hst2 : ¬ st.rangeStart < 0 := not_lt_of_le hst
      obtain ⟨r, rest, heq, hrs, hcl⟩ := ih
        ⟨if st.rangeStart < 0 then x.station else st.rangeStart,
         kfStep st.keyFrames x.station x.objectStation,
         st.obstacles ++ x.obs⟩
        (by rw [if_neg hst2]; exact hst)
      refine ⟨r, rest, heq, ?_, ?_⟩
      · rw [hrs]
        exact if_neg hst2
      · rcases hcl with hcl | ⟨z, hz, hcz⟩
        · exact Or.inl hcl
        · exact Or.inr ⟨z, List.mem_cons_of_mem x hz, hcz⟩
    · rw [Bool.not_eq_true] at hv
      rw [alSweepGo_close_open len st x xs hv hst]
      exact ⟨_, _, rfl, rfl, Or.inr ⟨x, List.mem_cons_self x xs, rfl⟩⟩

lemma alL_complete (len : ℚ) (ins : List AlStationIn) :
    ∀ (st : AlState),
    ins.Pairwise (fun a b => a.station < b.station) →
    (∀ y ∈ ins, 0 ≤ y.station) →
    (∀ y ∈ ins, y.station ≤ len) →
    (st.rangeStart ≥ 0 → ∀ y ∈ ins, st.rangeStart ≤ y.station) →
    ∀ x ∈ ins, x.hasObstacles = true →
    ∃ r ∈ alSweepGo len st ins,
      r.rangeStart ≤ x.station ∧ x.station ≤ r.closeStation := by
  induction ins with
  | nil =>
    intro st _ _ _ _ x hx
    exact absurd hx (List.not_mem_nil x)
  | cons z zs ih =>
    intro st hord hpos hlen hinv x hx hvx
    obtain ⟨hhead, htail⟩ := List.pairwise_cons.mp hord
    have hpos2 : ∀ y ∈ zs, 0 ≤ y.station :=
      fun y hy => hpos y (List.mem_cons_of_mem z hy)
    have hlen2 : ∀ y ∈ zs, y.station ≤ len :=
      fun y hy => hlen y (List.mem_cons_of_mem z hy)
    by_cases hv : z.hasObstacles = true
    · rw [alSweepGo_extend len st z zs hv]
      rcases List.mem_cons.mp hx with rfl | hx2
      · obtain ⟨r, rest, heq, hrs, hcl⟩ := alL_open len zs
          ⟨if st.rangeStart < 0 then x.station else st.rangeStart,
           kfStep st.keyFrames x.station x.objectStation,
           st.obstacles ++ x.obs⟩
          (by
            show (if st.rangeStart < 0 then x.station else st.rangeStart) ≥ 0
            by_cases hst : st.rangeStart < 0
            · rw [if_pos hst]
              exact hpos x hx
            · rw [if_neg hst]
              exact le_of_not_lt hst)
        refine ⟨r, by rw [heq]; exact List.mem_cons_self r rest, ?_, ?_⟩
        · rw [hrs]
          by_cases hst : st.rangeStart < 0
          · rw [if_pos hst]
          · rw [if_neg hst]
            exact hinv (le_of_not_lt hst) x (List.mem_cons_self x zs)
        · rcases hcl with hcl | ⟨w, hw, hcw⟩
          · rw [hcl]
            exact hlen x (List.mem_cons_self x zs)
          · rw [hcw]
            exact le_of_lt (hhead w hw)
      · obtain ⟨r, hr, hle⟩ := ih
          ⟨if st.rangeStart < 0 then z.station else st.rangeStart,
           kfStep st.keyFrames z.station z.objectStation,
           st.obstacles ++ z.obs⟩ htail hpos2 hlen2 (by
            intro _ y hy
            show (if st.rangeStart < 0 then z.station else st.rangeStart) ≤
              y.station
            by_cases hst : st.rangeStart < 0
            · rw [if_pos hst]
              exact le_of_lt (hhead y hy)
            · rw [if_neg hst]
              exact hinv (le_of_not_lt hst) y (List.mem_cons_of_mem z hy))
          x hx2 hvx
        exact ⟨r, hr, hle⟩
    · rw [Bool.not_eq_true] at hv
      have hx2 : x ∈ zs := by
        rcases List.mem_cons.mp hx with rfl | hx2
        · rw [hvx] at hv
          exact absurd hv (by simp)
        · exact hx2
      by_cases hst : st.rangeStart ≥ 0
      · rw [alSweepGo_close_open len st z zs hv hst]
        obtain ⟨r, hr, hle⟩ := ih alFresh htail hpos2 hlen2
          (fun habs => absurd habs (by norm_num [alFresh])) x hx2 hvx
        exact ⟨r, List.mem_cons_of_mem _ hr, hle⟩
      · rw [alSweepGo_close_closed len st z zs hv hst]
        exact ih st htail hpos2 hlen2 (fun habs => absurd habs hst) x hx2 hvx

lemma objViolation_iff (vd os : ℚ) (x : ObjStationIn) :
    objViolation vd os x = true ↔
      (objOutOfView vd os x = false ∧ x.obs ≠ []) := by
  unfold objViolation
  cases h : objOutOfView vd os x <;> cases hobs : x.obs <;> simp [h, hobs]

/-- C1 amended: in the path-to-object sweep, gated stations are not
accumulated: a station lies inside an emitted violation range exactly when
no gate tripped there and the obstacle query confirmed an obstruction
(every station inside an emitted range is such a station, and every such
station lies inside an emitted range — a gated station instead closes any
open range, as the counterexample shows); and the obstacle set of every
range receives models only from genuine obstruction hits at stations
inside that range, never from gated stations. -/
theorem C1_gating_vs_obstruction (vd os len : ℚ) (ins : List ObjStationIn)
    (hord : ins.Pairwise (fun a b => a.station < b.station))
    (hpos : ∀ y ∈ ins, 0 ≤ y.station) :
    (∀ r ∈ objSweep vd os len ins, ∀ x ∈ ins,
      r.rangeStart ≤ x.station → x.station ≤ r.rangeEnd →
      objOutOfView vd os x = false ∧ x.obs ≠ []) ∧
    (∀ x ∈ ins, objOutOfView vd os x = false → x.obs ≠ [] →
      ∃ r ∈ objSweep vd os len ins,
        r.rangeStart ≤ x.station ∧ x.station ≤ r.rangeEnd) ∧
    (∀ r ∈ objSweep vd os len ins, ∀ m ∈ r.obstacles,
      ∃ x ∈ ins, objOutOfView vd os x = false ∧ x.obs ≠ [] ∧ m ∈ x.obs ∧
        r.rangeStart ≤ x.station ∧ x.station ≤ r.rangeEnd) := by
  refine ⟨?_, ?_, ?_⟩
  · intro r hr x hx h1 h2
    unfold objSweep at hr
    exact (objViolation_iff vd os x).mp
      (objL_interior vd os len ins objFresh hord
        (fun habs => absurd habs (by norm_num [objFresh])) r hr x hx h1 h2)
  · intro x hx h1 h2
    have hv : objViolation vd os x = true :=
      (objViolation_iff vd os x).mpr ⟨h1, h2⟩
    obtain ⟨r, hr, hle⟩ := objL_complete vd os len ins objFresh hord hpos
      (fun habs => absurd habs (by norm_num [objFresh])) x hx hv
    exact ⟨r, hr, hle⟩
  · intro r hr m hm
    unfold objSweep at hr
    rcases objL_obstacles vd os len ins objFresh hord hpos
        (fun habs => absurd habs (by norm_num [objFresh])) (fun _ => rfl)
        r hr m hm with ⟨habs, _⟩ | ⟨x, hx, hvx, hmx, hxs, hxe⟩
    · exact absurd habs (by norm_num [objFresh])
    · obtain ⟨h1, h2⟩ := (objViolation_iff vd os x).mp hvx
      exact ⟨x, hx, h1, h2, hmx, hxs, hxe⟩

/-- Witness for C1 amended at the three-station counterexample input. -/
theorem C1_gating_vs_obstruction_witness :
    ([⟨0, 10, 1, [5]⟩, ⟨1, 400, 1, []⟩, ⟨2, 10, 1, [6]⟩] :
        List ObjStationIn).Pairwise (fun a b => a.station < b.station) ∧
    ((∀ r ∈ objSweep 300 100 10
        [⟨0, 10, 1, [5]⟩, ⟨1, 400, 1, []⟩, ⟨2, 10, 1, [6]⟩],
      ∀ x ∈ ([⟨0, 10, 1, [5]⟩, ⟨1, 400, 1, []⟩, ⟨2, 10, 1, [6]⟩] :
          List ObjStationIn),
      r.rangeStart ≤ x.station → x.station ≤ r.rangeEnd →
      objOutOfView 300 100 x = false ∧ x.obs ≠ []) ∧
    (∀ x ∈ ([⟨0, 10, 1, [5]⟩, ⟨1, 400, 1, []⟩, ⟨2, 10, 1, [6]⟩] :
        List ObjStationIn), objOutOfView 300 100 x = false → x.obs ≠ [] →
      ∃ r ∈ objSweep 300 100 10
        [⟨0, 10, 1, [5]⟩, ⟨1, 400, 1, []⟩, ⟨2, 10, 1, [6]⟩],
        r.rangeStart ≤ x.station ∧ x.station ≤ r.rangeEnd) ∧
    (∀ r ∈ objSweep 300 100 10
        [⟨0, 10, 1, [5]⟩, ⟨1, 400, 1, []⟩, ⟨2, 10, 1, [6]⟩],
      ∀ m ∈ r.obstacles,
      ∃ x ∈ ([⟨0, 10, 1, [5]⟩, ⟨1, 400, 1, []⟩, ⟨2, 10, 1, [6]⟩] :
          List ObjStationIn),
        objOutOfView 300 100 x = false ∧ x.obs ≠ [] ∧ m ∈ x.obs ∧
        r.rangeStart ≤ x.station ∧ x.station ≤ r.rangeEnd)) :=
  ⟨by norm_num,
    C1_gating_vs_obstruction 300 100 10
      [⟨0, 10, 1, [5]⟩, ⟨1, 400, 1, []⟩, ⟨2, 10, 1, [6]⟩]
      (by norm_num)
      (by intro y hy; fin_cases hy <;> norm_num)⟩

/-- C2 amended: for a single path, both sweeps emit ranges that are
pairwise non-overlapping and ordered by ascending start (each range's
start is at most its end, and each range ends strictly before the next
begins), and no violation station lies strictly outside every emitted
range.  The interior property differs between the sweeps: in the objects
sweep every sampled station inside the closed interval
[rangeStart, rangeEnd] was a violation, while in the alignment sweep the
emitted interval ends at the closing station (the first non-violating
station after the run, or the path length), so only stations in
[rangeStart, closeStation) were necessarily violations — the closing
station itself need not be one, as the counterexample shows. -/
theorem C2_sweep_range_invariants (vd os len lenA : ℚ)
    (insO : List ObjStationIn) (insA : List AlStationIn)
    (hordO : insO.Pairwise (fun a b => a.station < b.station))
    (hposO : ∀ y ∈ insO, 0 ≤ y.station)
    (hordA : insA.Pairwise (fun a b => a.station < b.station))
    (hposA : ∀ y ∈ insA, 0 ≤ y.station)
    (hlenA : ∀ y ∈ insA, y.station ≤ lenA) :
    (∀ r ∈ objSweep vd os len insO, r.rangeStart ≤ r.rangeEnd) ∧
    List.Chain' (fun r1 r2 => r1.rangeEnd < r2.rangeStart)
      (objSweep vd os len insO) ∧
    (∀ r ∈ objSweep vd os len insO, ∀ x ∈ insO,
      r.rangeStart ≤ x.station → x.station ≤ r.rangeEnd →
      objViolation vd os x = true) ∧
    (∀ x ∈ insO, objViolation vd os x = true →
      ∃ r ∈ objSweep vd os len insO,
        r.rangeStart ≤ x.station ∧ x.station ≤ r.rangeEnd) ∧
    (∀ r ∈ alSweep lenA insA, r.rangeStart ≤ r.closeStation) ∧
    List.Chain' (fun r1 r2 => r1.closeStation < r2.rangeStart)
      (alSweep lenA insA) ∧
    (∀ r ∈ alSweep lenA insA, ∀ x ∈ insA,
      r.rangeStart ≤ x.station → x.station < r.closeStation →
      x.hasObstacles = true) ∧
    (∀ x ∈ insA, x.hasObstacles = true →
      ∃ r ∈ alSweep lenA insA,
        r.rangeStart ≤ x.station ∧ x.station ≤ r.closeStation) := by
  refine ⟨?_, ?_, ?_, ?_, ?_, ?_, ?_, ?_⟩
  · intro r hr
    unfold objSweep at hr
    exact objL_mono vd os len insO objFresh hordO
      (fun habs => absurd habs (by norm_num [objFresh])) r hr
  · unfold objSweep
    exact objL_chain vd os len insO objFresh hordO
      (fun habs => absurd habs (by norm_num [objFresh]))
  · intro r hr x hx h1 h2
    unfold objSweep at hr
    exact objL_interior vd os len insO objFresh hordO
      (fun habs => absurd habs (by norm_num [objFresh])) r hr x hx h1 h2
  · intro x hx hv
    exact objL_complete vd os len insO objFresh hordO hposO
      (fun habs => absurd habs (by norm_num [objFresh])) x hx hv
  · intro r hr
    unfold alSweep at hr
    exact alL_mono lenA insA alFresh hordA hlenA
      (fun habs => absurd habs (by norm_num [alFresh])) r hr
  · unfold alSweep
    exact alL_chain lenA insA alFresh hordA
  · intro r hr x hx h1 h2
    unfold alSweep at hr
    exact alL_interior lenA insA alFresh hordA r hr x hx h1 h2
  · intro x hx hv
    exact alL_complete lenA insA alFresh hordA hposA hlenA
      (fun habs => absurd habs (by norm_num [alFresh])) x hx hv

/-- Witness for C2 amended at concrete inputs of both sweeps. -/
theorem C2_sweep_range_invariants_witness :
    ([⟨0, 10, 1, [5]⟩, ⟨1, 400, 1, []⟩, ⟨2, 10, 1, [6]⟩] :
        List ObjStationIn).Pairwise (fun a b => a.station < b.station) ∧
    ([⟨0, true, 5, [7]⟩, ⟨1, false, 0, []⟩] :
        List AlStationIn).Pairwise (fun a b => a.station < b.station) ∧
    ((∀ r ∈ objSweep 300 100 10
        [⟨0, 10, 1, [5]⟩, ⟨1, 400, 1, []⟩, ⟨2, 10, 1, [6]⟩],
       r.rangeStart ≤ r.rangeEnd) ∧
     List.Chain' (fun r1 r2 => r1.rangeEnd < r2.rangeStart)
       (objSweep 300 100 10
         [⟨0, 10, 1, [5]⟩, ⟨1, 400, 1, []⟩, ⟨2, 10, 1, [6]⟩]) ∧
     (∀ r ∈ objSweep 300 100 10
        [⟨0, 10, 1, [5]⟩, ⟨1, 400, 1, []⟩, ⟨2, 10, 1, [6]⟩],
       ∀ x ∈ ([⟨0, 10, 1, [5]⟩, ⟨1, 400, 1, []⟩, ⟨2, 10, 1, [6]⟩] :
           List ObjStationIn),
       r.rangeStart ≤ x.station → x.station ≤ r.rangeEnd →
       objViolation 300 100 x = true) ∧
     (∀ x ∈ ([⟨0, 10, 1, [5]⟩, ⟨1, 400, 1, []⟩, ⟨2, 10, 1, [6]⟩] :
         List ObjStationIn), objViolation 300 100 x = true →
       ∃ r ∈ objSweep 300 100 10
         [⟨0, 10, 1, [5]⟩, ⟨1, 400, 1, []⟩, ⟨2, 10, 1, [6]⟩],
         r.rangeStart ≤ x.station ∧ x.station ≤ r.rangeEnd) ∧
     (∀ r ∈ alSweep 10 [⟨0, true, 5, [7]⟩, ⟨1, false, 0, []⟩],
       r.rangeStart ≤ r.closeStation) ∧
     List.Chain' (fun r1 r2 => r1.closeStation < r2.rangeStart)
       (alSweep 10 [⟨0, true, 5, [7]⟩, ⟨1, false, 0, []⟩]) ∧
     (∀ r ∈ alSweep 10 [⟨0, true, 5, [7]⟩, ⟨1, false, 0, []⟩],
       ∀ x ∈ ([⟨0, true, 5, [7]⟩, ⟨1, false, 0, []⟩] : List AlStationIn),
       r.rangeStart ≤ x.station → x.station < r.closeStation →
       x.hasObstacles = true) ∧
     (∀ x ∈ ([⟨0, true, 5, [7]⟩, ⟨1, false, 0, []⟩] : List AlStationIn),
       x.hasObstacles = true →
       ∃ r ∈ alSweep 10 [⟨0, true, 5, [7]⟩, ⟨1, false, 0, []⟩],
         r.rangeStart ≤ x.station ∧ x.station ≤ r.closeStation)) :=
  ⟨by norm_num, by norm_num,
    C2_sweep_range_invariants 300 100 10 10
      [⟨0, 10, 1, [5]⟩, ⟨1, 400, 1, []⟩, ⟨2, 10, 1, [6]⟩]
      [⟨0, true, 5, [7]⟩, ⟨1, false, 0, []⟩]
      (by norm_num)
      (by intro y hy; fin_cases hy <;> norm_num)
      (by norm_num)
      (by intro y hy; fin_cases hy <;> norm_num)
      (by intro y hy; fin_cases hy <;> norm_num)⟩

end Visibility
